import Mathlib

/-!
Verification development for the GST File Organizer core
(filename classification, jurisdiction normalization, client registry,
completeness analysis, folder topology and file materialization).

The Python sources are shallowly embedded: strings are `List Char`
(Python str case operations are modelled on the ASCII range, matching
`Char.toLower`/`Char.toUpper`; Python whitespace is modelled by
`Char.isWhitespace`), integers are `Int` where Python semantics of
negative values matter (slices, length limits), the filesystem is an
explicit value threaded through the operations, and nondeterministic
I/O (what bytes a copy actually lands) is a function parameter.
-/

/-! ## Python string primitives -/

/-- Python `s[:n]` (list form): nonnegative `n` takes a prefix, negative `n`
counts from the end, clamping at zero exactly like Python slices. -/
def pyTake (s : List Char) (n : ℤ) : List Char :=
  if 0 ≤ n then s.take n.toNat else s.take ((s.length : ℤ) + n).toNat

/-- Python `str.strip()` (no arguments): remove leading and trailing whitespace. -/
def pyStrip (s : List Char) : List Char :=
  ((s.dropWhile Char.isWhitespace).reverse.dropWhile Char.isWhitespace).reverse

/-- Python `str.strip(chars)`: remove leading and trailing characters drawn from `cs`. -/
def pyStripChars (cs : List Char) (s : List Char) : List Char :=
  ((s.dropWhile (fun c => c ∈ cs)).reverse.dropWhile (fun c => c ∈ cs)).reverse

/-- Helper for `splitWS`: accumulates the current word (reversed). -/
def splitWSAux : List Char → List Char → List (List Char)
  | [], acc => if acc.isEmpty then [] else [acc.reverse]
  | c :: cs, acc =>
    if c.isWhitespace then
      if acc.isEmpty then splitWSAux cs [] else acc.reverse :: splitWSAux cs []
    else splitWSAux cs (c :: acc)

/-- Python `str.split()` with no separator: split on whitespace runs,
discarding empty words. -/
def splitWS (s : List Char) : List (List Char) := splitWSAux s []

/-- Structural worker for `replaceAll`.  The fuel argument (initially the
length of the string, an upper bound on the number of steps) only makes the
recursion structural so that the function evaluates in the kernel; it is
never exhausted. -/
def replaceAllFuel (pat repl : List Char) : Nat → List Char → List Char
  | 0, s => s
  | _ + 1, [] => []
  | fuel + 1, c :: cs =>
    if pat.isEmpty then c :: cs
    else if decide ((c :: cs).take pat.length = pat) then
      repl ++ replaceAllFuel pat repl fuel (cs.drop (pat.length - 1))
    else c :: replaceAllFuel pat repl fuel cs

/-- Python `str.replace(pat, repl)`: replace all occurrences, scanning left to
right, non-overlapping.  A (never exercised) empty pattern leaves the string
unchanged. -/
def replaceAll (pat repl s : List Char) : List Char :=
  replaceAllFuel pat repl s.length s

/-- Is `c` a regex word character (`\w`, ASCII model). -/
def isWordChar (c : Char) : Bool := c.isAlphanum || c = '_'

/-- Does `s` start with `pat` when compared case-insensitively
(`pat` is given lower-cased)? -/
def startsWithCI (pat s : List Char) : Bool :=
  decide ((s.take pat.length).map Char.toLower = pat)

/-- Core of `re.sub(r'\b<word>\b', repl, s, flags=re.IGNORECASE)` for a
word-only pattern: replace case-insensitive whole-word occurrences left to
right.  `atBoundary` tracks whether the previous character (if any) was a
non-word character, i.e. whether `\b` holds before the current position. -/
def reSubWordFuel (pat repl : List Char) : Nat → List Char → Bool → List Char
  | 0, s, _ => s
  | _ + 1, [], _ => []
  | fuel + 1, c :: cs, atBoundary =>
    if atBoundary && !pat.isEmpty && startsWithCI pat (c :: cs) &&
        (match (c :: cs).drop pat.length with
          | [] => true
          | d :: _ => !isWordChar d) then
      repl ++ reSubWordFuel pat repl fuel (cs.drop (pat.length - 1)) false
    else c :: reSubWordFuel pat repl fuel cs (!isWordChar c)

/-- `re.sub(r'\b<pat>\b', repl, s, flags=re.IGNORECASE)` for an alphabetic
pattern, given lower-cased.  The fuel (the string length) only makes the
recursion structural; it is never exhausted. -/
def reSubWord (pat repl s : List Char) : List Char :=
  reSubWordFuel pat repl s.length s true

/-! ## Jurisdiction normalizer (`src/utils/helpers.py: get_state_code`) -/

/-- `STATE_CODE_MAPPING` from `src/utils/constants.py`: lower-cased state
names (including the two synonym spellings) to two-letter codes. -/
def STATE_CODE_MAPPING : List (List Char × List Char) :=
  [("andhra pradesh".toList, "AP".toList),
   ("arunachal pradesh".toList, "AR".toList),
   ("assam".toList, "AS".toList),
   ("bihar".toList, "BR".toList),
   ("chhattisgarh".toList, "CG".toList),
   ("goa".toList, "GA".toList),
   ("gujarat".toList, "GJ".toList),
   ("haryana".toList, "HR".toList),
   ("himachal pradesh".toList, "HP".toList),
   ("jharkhand".toList, "JH".toList),
   ("karnataka".toList, "KA".toList),
   ("kerala".toList, "KL".toList),
   ("madhya pradesh".toList, "MP".toList),
   ("maharashtra".toList, "MH".toList),
   ("manipur".toList, "MN".toList),
   ("meghalaya".toList, "ML".toList),
   ("mizoram".toList, "MZ".toList),
   ("nagaland".toList, "NL".toList),
   ("odisha".toList, "OD".toList),
   ("orissa".toList, "OD".toList),
   ("punjab".toList, "PB".toList),
   ("rajasthan".toList, "RJ".toList),
   ("sikkim".toList, "SK".toList),
   ("tamil nadu".toList, "TN".toList),
   ("telangana".toList, "TS".toList),
   ("tripura".toList, "TR".toList),
   ("uttar pradesh".toList, "UP".toList),
   ("uttarakhand".toList, "UK".toList),
   ("west bengal".toList, "WB".toList),
   ("andaman and nicobar islands".toList, "AN".toList),
   ("chandigarh".toList, "CH".toList),
   ("dadra and nagar haveli and daman and diu".toList, "DD".toList),
   ("delhi".toList, "DL".toList),
   ("national capital territory of delhi".toList, "DL".toList),
   ("jammu and kashmir".toList, "JK".toList),
   ("ladakh".toList, "LA".toList),
   ("lakshadweep".toList, "LD".toList),
   ("puducherry".toList, "PY".toList),
   ("pondicherry".toList, "PY".toList)]

/-- Fallback abbreviation of `get_state_code` for names absent from the
table: initials of the first two words of the cleaned name, or — for a
single word — the first three characters of the ORIGINAL argument,
upper-cased. -/
def stateCodeFallback (clean_state state_name : List Char) : List Char :=
  if 2 ≤ (splitWS clean_state).length then
    (((splitWS clean_state).take 2).map (fun w => (w.take 1).map Char.toUpper)).flatten
  else (state_name.take 3).map Char.toUpper

/-- `get_state_code` from `src/utils/helpers.py`: convert a full state name
to its code.  Empty (falsy) input is returned unchanged; otherwise the
stripped lower-cased name is looked up in the table (a looked-up empty
string would count as falsy, matching `if state_code:`), falling back to
`stateCodeFallback`. -/
def get_state_code (state_name : List Char) : List Char :=
  if state_name = [] then state_name
  else
    match List.lookup ((pyStrip state_name).map Char.toLower) STATE_CODE_MAPPING with
    | some code =>
      if code.isEmpty then
        stateCodeFallback ((pyStrip state_name).map Char.toLower) state_name
      else code
    | none => stateCodeFallback ((pyStrip state_name).map Char.toLower) state_name

/-! ## Client-state key (`src/utils/helpers.py: create_client_state_key`) -/

/-- `create_client_state_key(client, state, max_length)`: abbreviate
`Private`/`Limited` (case-insensitive whole words), append the state code,
and cap the length, trimming the client portion when at least six
characters remain for it and otherwise truncating the whole key. -/
def create_client_state_key (client state : List Char) (max_length : ℤ) : List Char :=
  let clean_client := reSubWord "limited".toList "Ltd".toList
    (reSubWord "private".toList "Pvt".toList client)
  let state_code := get_state_code state
  let key := clean_client ++ '-' :: state_code
  if (key.length : ℤ) > max_length then
    let available : ℤ := max_length - state_code.length - 1
    if available > 5 then pyTake clean_client available ++ '-' :: state_code
    else pyTake key max_length
  else key

/-- The `FileOrganizer.__init__` clamp of the configured client-folder
maximum length: any value `≤ 0` falls back to the default 35. -/
def clampClientNameMaxLength (n : ℤ) : ℤ := if 0 < n then n else 35

/-! ## Filename classifier (`src/core/file_parser.py: parse_filename` and
`src/utils/constants.py: FILE_PATTERNS`)

Each regex of the pattern bank is embedded as a deterministic matcher.
The regexes are simple enough that backtracking never yields a second
parse: a `([^-]+)-` group is forced to be the maximal nonempty run of
non-hyphen characters followed by a literal hyphen, and the trailing
`\.xlsx?$` is unambiguous because a string cannot end in both `.xls` and
`.xlsx`.  Matching is case-insensitive (`re.IGNORECASE`): literals are
stored lower-cased and input characters are lower-cased before comparison,
while captured groups keep the original characters. -/

/-- Match a lower-cased literal case-insensitively at the start of `s`,
returning the rest. -/
def matchLitCI (lit s : List Char) : Option (List Char) :=
  if (s.take lit.length).map Char.toLower = lit then some (s.drop lit.length) else none

/-- Capture a `([^-]+)-` group: the maximal nonempty run of non-hyphen
characters, which must be followed by a hyphen; returns (group, rest). -/
def groupHyp (s : List Char) : Option (List Char × List Char) :=
  match s.dropWhile (fun c => c ≠ '-') with
  | '-' :: rest =>
    if (s.takeWhile (fun c => c ≠ '-')).isEmpty then none
    else some (s.takeWhile (fun c => c ≠ '-'), rest)
  | _ => none

/-- Does `s` end with the lower-cased suffix `suf`, case-insensitively? -/
def endsWithCI (suf s : List Char) : Bool :=
  decide (suf.length ≤ s.length) &&
    decide ((s.drop (s.length - suf.length)).map Char.toLower = suf)

/-- Strip the `\.xlsx?$` extension (case-insensitive); the two possible
suffixes are mutually exclusive, so this is the unique regex parse. -/
def stripExt (s : List Char) : Option (List Char) :=
  if endsWithCI ".xlsx".toList s then some (s.take (s.length - 5))
  else if endsWithCI ".xls".toList s then some (s.take (s.length - 4))
  else none

/-- Strip an optional leading parenthesized counter `(?:\(\d+\)\s*)?`:
`(` followed by one or more digits, `)`, then any whitespace.  If the
counter shape is not present the string is returned unchanged (the regex
group is optional). -/
def stripCounter (s : List Char) : List Char :=
  match s with
  | [] => []
  | c :: rest =>
    if c = '(' then
      match rest.takeWhile Char.isDigit, rest.dropWhile Char.isDigit with
      | [], _ => c :: rest
      | _ :: _, ')' :: r2 => r2.dropWhile Char.isWhitespace
      | _ :: _, _ => c :: rest
    else c :: rest

/-- `^GSTR-2B-Reco-([^-]+)-([^-]+)-(.+)\.xlsx?$` (IGNORECASE). -/
def matchGSTR2BReco (s : List Char) : Option (List (List Char)) := do
  let r1 ← matchLitCI "gstr-2b-reco-".toList s
  let (g1, r2) ← groupHyp r1
  let (g2, r3) ← groupHyp r2
  let g3 ← stripExt r3
  if g3.isEmpty then none else some [g1, g2, g3]

/-- `^ImsReco-([^-]+)-([^-]+)-(\d{8})\.xlsx?$` (IGNORECASE). -/
def matchImsReco (s : List Char) : Option (List (List Char)) := do
  let r1 ← matchLitCI "imsreco-".toList s
  let (g1, r2) ← groupHyp r1
  let (g2, r3) ← groupHyp r2
  let g3 ← stripExt r3
  if g3.length = 8 && g3.all Char.isDigit then some [g1, g2, g3] else none

/-- `^(?:\(\d+\)\s*)?GSTR3B-([^-]+)-([^-]+)-([^-]+)\.xlsx?$` (IGNORECASE):
the only rule tolerating a leading parenthesized counter. -/
def matchGSTR3B (s : List Char) : Option (List (List Char)) := do
  let r1 ← matchLitCI "gstr3b-".toList (stripCounter s)
  let (g1, r2) ← groupHyp r1
  let (g2, r3) ← groupHyp r2
  let g3 ← stripExt r3
  if g3.isEmpty || g3.contains '-' then none else some [g1, g2, g3]

/-- `^Sales-([^-]+)-([^-]+)-([^-]+)-([^-]+)\.xlsx?$` (IGNORECASE). -/
def matchSales (s : List Char) : Option (List (List Char)) := do
  let r1 ← matchLitCI "sales-".toList s
  let (g1, r2) ← groupHyp r1
  let (g2, r3) ← groupHyp r2
  let (g3, r4) ← groupHyp r3
  let g4 ← stripExt r4
  if g4.isEmpty || g4.contains '-' then none else some [g1, g2, g3, g4]

/-- `^SalesReco-([^-]+)-([^-]+)-(.+)\.xlsx?$` (IGNORECASE). -/
def matchSalesReco (s : List Char) : Option (List (List Char)) := do
  let r1 ← matchLitCI "salesreco-".toList s
  let (g1, r2) ← groupHyp r1
  let (g2, r3) ← groupHyp r2
  let g3 ← stripExt r3
  if g3.isEmpty then none else some [g1, g2, g3]

/-- `^AnnualReport-([^-]+)-([^-]+)-(.+)\.xlsx?$` (IGNORECASE). -/
def matchAnnualReport (s : List Char) : Option (List (List Char)) := do
  let r1 ← matchLitCI "annualreport-".toList s
  let (g1, r2) ← groupHyp r1
  let (g2, r3) ← groupHyp r2
  let g3 ← stripExt r3
  if g3.isEmpty then none else some [g1, g2, g3]

/-- One entry of the pattern bank (`FILE_PATTERNS`): name, matcher, the
`type`, `category` and `folder` labels, and the capture-slot names. -/
structure PatternRule where
  pname : List Char
  matcher : List Char → Option (List (List Char))
  ftype : List Char
  category : List Char
  folder : List Char
  groups : List (List Char)

/-- The pattern bank in its fixed (insertion) order. -/
def FILE_PATTERNS : List PatternRule :=
  [⟨"GSTR-2B-Reco".toList, matchGSTR2BReco, "GSTR-2B Reco".toList, "ITC".toList,
    "itc".toList, ["client".toList, "state".toList, "period".toList]⟩,
   ⟨"ImsReco".toList, matchImsReco, "IMS Reco".toList, "ITC".toList,
    "itc".toList, ["client".toList, "state".toList, "date".toList]⟩,
   ⟨"GSTR3B".toList, matchGSTR3B, "GSTR-3B Export".toList, "GSTR3B".toList,
    "gstr3b".toList, ["client".toList, "state".toList, "month".toList]⟩,
   ⟨"Sales".toList, matchSales, "Sales".toList, "Sales".toList,
    "sales".toList, ["client".toList, "state".toList, "start_month".toList, "end_month".toList]⟩,
   ⟨"SalesReco".toList, matchSalesReco, "Sales Reco".toList, "Sales".toList,
    "sales".toList, ["client".toList, "state".toList, "period".toList]⟩,
   ⟨"AnnualReport".toList, matchAnnualReport, "Annual Report".toList, "Annual".toList,
    "root".toList, ["client".toList, "state".toList, "year".toList]⟩]

/-- The classification result of `parse_filename`.  The soft-validation
warnings of the source (produced by `validate_client_name`) are attached
diagnostics that never alter any of these fields and are not modelled. -/
structure ParseResult where
  filename : List Char
  parsed : Bool
  ftype : List Char
  category : List Char
  folder : List Char
  client : List Char
  state : List Char
  metadata : List (List Char × List Char)
  pattern : Option (List Char)
deriving DecidableEq

/-- The initial `result` dict of `parse_filename`. -/
def defaultParseResult (filename : List Char) : ParseResult :=
  { filename := filename, parsed := false, ftype := "Unknown".toList,
    category := "Unknown".toList, folder := "Unknown".toList,
    client := [], state := [], metadata := [], pattern := none }

/-- One iteration of the capture-assignment loop of `parse_filename`:
an empty capture is skipped; the `client` and `state` slots set the
respective fields (stripped); any other slot is appended to the metadata
map (stripped). -/
def applyGroupStep (r : ParseResult) (n g : List Char) : ParseResult :=
  if g.isEmpty then r
  else if n = "client".toList then { r with client := pyStrip g }
  else if n = "state".toList then { r with state := pyStrip g }
  else { r with metadata := r.metadata ++ [(n, pyStrip g)] }

/-- The capture-assignment loop of `parse_filename` over the zipped
(slot name, captured group) pairs; slot names beyond the number of groups
are skipped by the source loop, which the zip models. -/
def applyGroups (r : ParseResult) : List (List Char × List Char) → ParseResult
  | [] => r
  | (n, g) :: rest => applyGroups (applyGroupStep r n g) rest

/-- The pattern-bank loop of `parse_filename`: first structural match wins. -/
def tryPatterns (filename : List Char) : List PatternRule → ParseResult
  | [] => defaultParseResult filename
  | rule :: rest =>
    match rule.matcher filename with
    | some gs =>
      applyGroups
        { defaultParseResult filename with
          parsed := true, pattern := some rule.pname, ftype := rule.ftype,
          category := rule.category, folder := rule.folder }
        (rule.groups.zip gs)
    | none => tryPatterns filename rest

/-- `FileParser.parse_filename` from `src/core/file_parser.py`. -/
def parse_filename (filename : List Char) : ParseResult :=
  tryPatterns filename FILE_PATTERNS

/-! ## Client registry and completeness analysis
(`src/core/file_parser.py: _add_to_client_data, _analyze_client_completeness`) -/

/-- A path is a list of components (separators are never re-parsed). -/
abbrev FsPath := List (List Char)

/-- The per-file record built by `_process_file`: scan metadata merged with
the classification.  Timestamps are abstract stamps.  Fields that no claim
touches (`size_formatted`, `relative_path`, the parse metadata map) are
omitted; `sanitized_name` is absent (`none`) until materialization. -/
structure FileData where
  name : List Char
  full_path : FsPath
  size : Nat
  modified : Nat
  created : Nat
  extension : List Char
  ftype : List Char
  category : List Char
  client : List Char
  state : List Char
  sanitized_name : Option (List Char)
deriving DecidableEq, Inhabited

/-- A `ClientRecord` of the registry (`self.client_data[key]`). -/
structure ClientRecord where
  client : List Char
  state : List Char
  state_code : List Char
  files : List (List Char × List FileData)
  missing_files : List (List Char)
  extra_files : List (List Char)
  status : List Char
  completeness : ℚ
  total_size : Nat
  file_count : Nat
deriving DecidableEq, Inhabited

/-- The defaultdict initial value of a client record (`status 'Unknown'`). -/
def emptyClientRecord : ClientRecord :=
  { client := [], state := [], state_code := [], files := [],
    missing_files := [], extra_files := [], status := "Unknown".toList,
    completeness := 0, total_size := 0, file_count := 0 }

/-- The registry dict, in insertion order. -/
abbrev Registry := List (List Char × ClientRecord)

/-- `client['files'][file_type].append(file_data)` on the category map:
append to the existing key in place, or add the key at the end. -/
def appendFileAssoc : List (List Char × List FileData) → List Char → FileData →
    List (List Char × List FileData)
  | [], t, fd => [(t, [fd])]
  | (k, fs) :: rest, t, fd =>
    if k = t then (k, fs ++ [fd]) :: rest
    else (k, fs) :: appendFileAssoc rest t fd

/-- Store a record under a key: replace in place, or append a new entry
(dict insertion order). -/
def setClientAssoc : Registry → List Char → ClientRecord → Registry
  | [], k, c => [(k, c)]
  | (k0, c0) :: rest, k, c =>
    if k0 = k then (k0, c) :: rest else (k0, c0) :: setClientAssoc rest k c

/-- `FileParser._add_to_client_data`: key the record by
`{client}-{state_code}`, get-or-create it, overwrite the display strings
with this file, append the file under its type, accumulate size and count. -/
def add_to_client_data (reg : Registry) (fd : FileData) : Registry :=
  setClientAssoc reg (fd.client ++ '-' :: get_state_code fd.state)
    (let client := (List.lookup (fd.client ++ '-' :: get_state_code fd.state) reg).getD
        emptyClientRecord
     { client with
       client := fd.client,
       state := fd.state,
       state_code := get_state_code fd.state,
       files := appendFileAssoc client.files fd.ftype fd,
       total_size := client.total_size + fd.size,
       file_count := client.file_count + 1 })

/-- A whole scan: fold `_add_to_client_data` over the files in order. -/
def addFiles (reg : Registry) (fds : List FileData) : Registry :=
  fds.foldl add_to_client_data reg

/-- `EXPECTED_FILE_TYPES` from `src/utils/constants.py`. -/
def EXPECTED_FILE_TYPES : List (List Char) :=
  ["GSTR-2B Reco".toList, "IMS Reco".toList, "GSTR-3B Export".toList,
   "Sales".toList, "Sales Reco".toList, "Annual Report".toList]

/-- Lexicographic comparison on code points, modelling Python string `<=`. -/
def lexLe : List Char → List Char → Bool
  | [], _ => true
  | _ :: _, [] => false
  | x :: xs, y :: ys => if x = y then lexLe xs ys else decide (x < y)

/-- Insertion step of `sortStrs`. -/
def insertSorted (a : List Char) : List (List Char) → List (List Char)
  | [] => [a]
  | b :: bs => if lexLe a b then a :: b :: bs else b :: insertSorted a bs

/-- Python `sorted` on strings (modelled by insertion sort with `lexLe`). -/
def sortStrs : List (List Char) → List (List Char)
  | [] => []
  | a :: as => insertSorted a (sortStrs as)

/-- Decimal rendering of a natural, for f-string interpolation. -/
def natToStr (n : Nat) : List Char := (Nat.repr n).toList

/-- Python `round(x, 1)` on the values reachable here: round half up to one
decimal.  (CPython rounds ties to even, but no reachable completeness value
`k/6 x 100` is a tie at one decimal, so the models coincide.) -/
def pyRound1 (x : ℚ) : ℚ := (⌊x * 10 + 1 / 2⌋ : ℚ) / 10

/-- `found_types = set(client['files'].keys())` (keys in first-seen order). -/
def foundTypesOf (c : ClientRecord) : List (List Char) :=
  (c.files.map Prod.fst).dedup

/-- `missing = sorted(expected_types - found_types)`. -/
def missingOf (c : ClientRecord) : List (List Char) :=
  sortStrs (EXPECTED_FILE_TYPES.filter (fun t => !(foundTypesOf c).contains t))

/-- The duplicate warnings: every category with more than one file except
the repeatable `GSTR-3B Export`. -/
def extrasOf (c : ClientRecord) : List (List Char) :=
  c.files.filterMap (fun p =>
    if 1 < p.2.length ∧ p.1 ≠ "GSTR-3B Export".toList then
      some ("Multiple ".toList ++ p.1 ++ " (".toList ++ natToStr p.2.length
        ++ " files)".toList)
    else none)

/-- `round(found/expected x 100, 1)` (zero when the expected set is empty). -/
def completenessOf (c : ClientRecord) : ℚ :=
  pyRound1 (if EXPECTED_FILE_TYPES.length ≠ 0 then
    ((foundTypesOf c).length : ℚ) / (EXPECTED_FILE_TYPES.length : ℚ) * 100 else 0)

/-- The status precedence of `_analyze_client_completeness`. -/
def statusOf (c : ClientRecord) : List Char :=
  if missingOf c = [] ∧ extrasOf c = [] then "Complete".toList
  else if missingOf c ≠ [] then
    "Missing ".toList ++ natToStr (missingOf c).length ++ " files".toList
  else "Has duplicates".toList

/-- `FileParser._analyze_client_completeness` on one record (the source
loops this over every record; the `status_icon` cosmetic field is not
modelled). -/
def analyzeClientRecord (c : ClientRecord) : ClientRecord :=
  { c with
    missing_files := missingOf c,
    extra_files := extrasOf c,
    completeness := completenessOf c,
    status := statusOf c }

/-- The registry-wide analysis pass. -/
def analyze_client_completeness (reg : Registry) : Registry :=
  reg.map (fun p => (p.1, analyzeClientRecord p.2))

/-- Concrete file used by the C8 counterexample: state spelled `Orissa`. -/
def fdOrissa : FileData :=
  { name := "GSTR3B-Acme-Orissa-Apr.xlsx".toList,
    full_path := [ "source".toList, "GSTR3B-Acme-Orissa-Apr.xlsx".toList ],
    size := 2048, modified := 10, created := 9, extension := ".xlsx".toList,
    ftype := "GSTR-3B Export".toList, category := "GSTR3B".toList,
    client := "Acme".toList, state := "Orissa".toList, sanitized_name := none }

/-- Concrete file used by the C8 counterexample: synonym spelling `Odisha`,
normalizing to the same code `OD` and hence the same client key. -/
def fdOdisha : FileData :=
  { name := "AnnualReport-Acme-Odisha-2024.xlsx".toList,
    full_path := [ "source".toList, "AnnualReport-Acme-Odisha-2024.xlsx".toList ],
    size := 4096, modified := 12, created := 11, extension := ".xlsx".toList,
    ftype := "Annual Report".toList, category := "Annual".toList,
    client := "Acme".toList, state := "Odisha".toList, sanitized_name := none }

/-! ## Filesystem model

The filesystem is a value: regular files as an association list from paths
to byte contents, directories as an association list from paths to
modification stamps, plus the current clock stamp.  Paths are component
lists; directory-iteration order is the list order; exceptions raised and
caught inside an operation surface as its `false`/`none` outcome. -/

structure FS where
  files : List (FsPath × List Nat)
  dirs : List (FsPath × Nat)
  now : Nat
deriving DecidableEq

/-- `safe_path_join` on one extra component: empty parts are dropped. -/
def fsJoin (base : FsPath) (name : List Char) : FsPath :=
  if name.isEmpty then base else base ++ [name]

/-- All nonempty prefixes of a path (the chain `mkdir -p` touches). -/
def prefixesOf (p : FsPath) : List FsPath :=
  (List.range p.length).map (fun i => p.take (i + 1))

def isFile (fs : FS) (p : FsPath) : Bool := (List.lookup p fs.files).isSome

def isDir (fs : FS) (p : FsPath) : Bool := (fs.dirs.map Prod.fst).contains p

/-- `Path.exists()`. -/
def pathExists (fs : FS) (p : FsPath) : Bool := isFile fs p || isDir fs p

/-- Register the listed directories that are not yet present, stamping them
with `now`; existing directories keep their stamp and position. -/
def addDirsGo (now : Nat) (ds : List (FsPath × Nat)) : List FsPath → List (FsPath × Nat)
  | [] => ds
  | q :: qs =>
    if (ds.map Prod.fst).contains q then addDirsGo now ds qs
    else addDirsGo now (ds ++ [(q, now)]) qs

def addDirs (fs : FS) (ps : List FsPath) : FS :=
  { fs with dirs := addDirsGo fs.now fs.dirs ps }

/-- `ensure_path_exists` from `src/utils/helpers.py`:
`mkdir(parents=True, exist_ok=True)` — create-if-missing along the whole
chain; raises (here `none`) only when some prefix already exists as a
regular file. -/
def ensure_path_exists (fs : FS) (p : FsPath) : Option FS :=
  if (prefixesOf p).any (fun q => isFile fs q) then none
  else some (addDirs fs (prefixesOf p))

def setFileAssoc : List (FsPath × List Nat) → FsPath → List Nat → List (FsPath × List Nat)
  | [], p, b => [(p, b)]
  | (q, b0) :: rest, p, b =>
    if q = p then (q, b) :: rest else (q, b0) :: setFileAssoc rest p b

/-- `safe_copy_file` from `src/utils/helpers.py`.  The `corrupt` parameter
models what bytes the raw copy actually lands (I/O nondeterminism); a
faithful copy is `corrupt = id`.  Returns `false` when the source is
missing, the destination parent cannot be created, the destination is a
directory (the raised exception is caught), or — with `verify` — when the
landed size differs from the source size, in which case the corrupted
destination is unlinked. -/
def safe_copy_file (fs : FS) (src dst : FsPath) (verify : Bool)
    (corrupt : List Nat → List Nat) : Bool × FS :=
  match List.lookup src fs.files with
  | none => (false, fs)
  | some srcBytes =>
    match ensure_path_exists fs dst.dropLast with
    | none => (false, fs)
    | some fs1 =>
      if isDir fs1 dst then (false, fs1)
      else
        let written := corrupt srcBytes
        let fs2 : FS := { fs1 with files := setFileAssoc fs1.files dst written }
        if verify then
          if srcBytes.length ≠ written.length then
            (false, { fs2 with files := fs2.files.filter (fun e => decide (e.1 ≠ dst)) })
          else (true, fs2)
        else (true, fs2)

/-- `Path(...).suffix` of a final component (pathlib semantics: the part
from the last dot, unless that dot is leading or trailing). -/
def suffixOf (name : List Char) : List Char :=
  match name.reverse.findIdx? (fun c => c = '.') with
  | none => []
  | some j =>
    if 0 < name.length - 1 - j ∧ name.length - 1 - j < name.length - 1 then
      name.drop (name.length - 1 - j)
    else []

/-- `Path(...).stem` of a final component. -/
def stemOf (name : List Char) : List Char :=
  name.take (name.length - (suffixOf name).length)

/-- `create_backup` from `src/utils/helpers.py`: copy an existing regular
file to `{stem}_backup_{timestamp}{suffix}` beside it; a missing file (or a
raising copy, e.g. of a directory) yields `None` and no change. -/
def create_backup (fs : FS) (safeTs : List Char) (p : FsPath) : Option FsPath × FS :=
  match List.lookup p fs.files with
  | none => (none, fs)
  | some bytes =>
    let name := p.getLast?.getD []
    let bp := p.dropLast ++ [stemOf name ++ "_backup_".toList ++ safeTs ++ suffixOf name]
    (some bp, { fs with files := setFileAssoc fs.files bp bytes })

/-! ## Filename sanitizer (`src/utils/helpers.py: sanitize_filename`) -/

/-- The `invalid_chars` string of `sanitize_filename` (character codes are
used where a literal would be awkward: 123/125 braces, 39 apostrophe,
96 backtick). -/
def invalidChars : List Char :=
  ['<', '>', ':', '"', '/', '\\', '|', '?', '*', '[', ']',
   Char.ofNat 123, Char.ofNat 125, '+', '=', '!', '@', '#', '$', '%', '^',
   ',', ';', Char.ofNat 39, '"', Char.ofNat 96, '~']

/-- ASCII control characters and the 127-159 range. -/
def isControlChar (c : Char) : Bool :=
  decide (c.toNat < 32) || (decide (127 ≤ c.toNat) && decide (c.toNat ≤ 159))

def wsOrU (c : Char) : Bool := c.isWhitespace || c = '_'

/-- Structural worker for `collapseRuns` (fuel is the string length). -/
def collapseFuel : Nat → List Char → List Char
  | 0, s => s
  | _ + 1, [] => []
  | fuel + 1, c :: cs =>
    if wsOrU c then '_' :: collapseFuel fuel (cs.dropWhile wsOrU)
    else c :: collapseFuel fuel cs

/-- `re.sub(r'[\s_]+', '_', s)`: collapse whitespace/underscore runs. -/
def collapseRuns (s : List Char) : List Char := collapseFuel s.length s

/-- The stem-cleaning pipeline of `sanitize_filename`: plain
(case-sensitive) `Private`/`Limited` abbreviations, control and invalid
characters masked with `_`, whitespace/underscore runs collapsed, then
`_. ` stripped from both ends. -/
def sanitizeBase (filename : List Char) : List Char :=
  pyStripChars "_. ".toList (collapseRuns
    (((replaceAll "Limited".toList "Ltd".toList
        (replaceAll "Private".toList "Pvt".toList (stemOf filename))).map
      (fun c => if isControlChar c then '_' else c)).map
      (fun c => if invalidChars.contains c then '_' else c)))

/-- The fallback-and-length-cap tail of `sanitize_filename`. -/
def sanitizeCap (b6 : List Char) (extLen : Nat) (max_length : ℤ) : List Char :=
  if ((if b6 = [] then "unnamed".toList else b6).length : ℤ) >
      max_length - (extLen : ℤ) - 10 then
    pyTake (if b6 = [] then "unnamed".toList else b6) (max_length - (extLen : ℤ) - 10)
  else (if b6 = [] then "unnamed".toList else b6)

/-- `sanitize_filename` from `src/utils/helpers.py`: split off the
extension, clean the stem (`sanitizeBase`), fall back to `unnamed`, cap
the length leaving room for the extension (`sanitizeCap`), and re-attach
the extension.  The argument is treated as a final path component. -/
def sanitize_filename (filename : List Char) (max_length : ℤ) : List Char :=
  if filename = [] then "unnamed".toList
  else if suffixOf filename ≠ [] then
    sanitizeCap (sanitizeBase filename) (suffixOf filename).length max_length
      ++ suffixOf filename
  else sanitizeCap (sanitizeBase filename) (suffixOf filename).length max_length

/-! ## File organizer (`src/core/file_organizer.py`) -/

inductive ProcessingMode
  | fresh
  | rerun
  | resume
deriving DecidableEq

/-- The `FileOrganizer` configuration.  `timestamp`/`safe_timestamp` are
the run stamps taken at construction; construction-time validation
(`_validate_inputs`) and the `created_folders`/`copied_files`/`errors`
trackers are not modelled (the per-file results returned below carry the
same information). -/
structure Organizer where
  target_folder : FsPath
  processing_mode : ProcessingMode
  include_client_name : Bool
  client_folder_settings : List (List Char × Bool)
  client_name_max_length : ℤ
  timestamp : List Char
  safe_timestamp : List Char
deriving DecidableEq

/-- `FileOrganizer.__init__`: the max-length clamp applied at construction. -/
def mkOrganizer (target : FsPath) (mode : ProcessingMode) (inc : Bool)
    (settings : List (List Char × Bool)) (maxLen : ℤ) (ts safeTs : List Char) :
    Organizer :=
  { target_folder := target, processing_mode := mode, include_client_name := inc,
    client_folder_settings := settings,
    client_name_max_length := clampClientNameMaxLength maxLen,
    timestamp := ts, safe_timestamp := safeTs }

structure Folders where
  level1 : FsPath
  level2 : FsPath
  version : FsPath
  gstr3b : FsPath
  itc : FsPath
  sales : FsPath
deriving DecidableEq

/-- The existing run folders directly under the target root
(`iterdir` + `is_dir` + name check), with their stamps. -/
def selectAnnualFolders (fs : FS) (target : FsPath) : List (FsPath × Nat) :=
  fs.dirs.filter (fun d =>
    decide (d.1.dropLast = target) &&
    "Annual Statement-".toList.isPrefixOf (d.1.getLast?.getD []))

def maxByMtimeGo (p : FsPath) (m : Nat) : List (FsPath × Nat) → FsPath
  | [] => p
  | (q, n) :: rest => if m < n then maxByMtimeGo q n rest else maxByMtimeGo p m rest

/-- Python `max(..., key=mtime)`: first entry among stamp ties. -/
def maxByMtime : List (FsPath × Nat) → Option FsPath
  | [] => none
  | (p, m) :: rest => some (maxByMtimeGo p m rest)

/-- `FileOrganizer._get_level1_folder`: fresh always creates the
timestamped run folder; rerun/resume reuse the most-recently-modified
existing one, degrading to fresh behaviour when none exists. -/
def get_level1_folder (org : Organizer) (fs : FS) : Option (FsPath × FS) :=
  match org.processing_mode with
  | .fresh =>
    (ensure_path_exists fs
        (fsJoin org.target_folder ("Annual Statement-".toList ++ org.timestamp))).map
      (fun fs1 => (fsJoin org.target_folder ("Annual Statement-".toList ++ org.timestamp), fs1))
  | _ =>
    match maxByMtime (selectAnnualFolders fs org.target_folder) with
    | some p => some (p, fs)
    | none =>
      (ensure_path_exists fs
          (fsJoin org.target_folder ("Annual Statement-".toList ++ org.timestamp))).map
        (fun fs1 => (fsJoin org.target_folder ("Annual Statement-".toList ++ org.timestamp), fs1))

/-- A category folder name: the template with the sanitized client in
parentheses; when the client name is not included, the ` (client)` part is
removed again by a string replace, exactly as the source does. -/
def catFolderName (base cl : List Char) (inc : Bool) : List Char :=
  if inc then base ++ " (".toList ++ cl ++ [')']
  else replaceAll (" (".toList ++ cl ++ [')']) [] (base ++ " (".toList ++ cl ++ [')'])

/-- `FileOrganizer.create_client_structure`: run folder, client folder
(keyed by the length-capped client-state key), a new version folder, and
the three category folders (dict order gstr3b, itc, sales); every
directory creation is create-if-missing; an error anywhere aborts this
client (`none`). -/
def create_client_structure (org : Organizer) (ci : ClientRecord) (fs : FS) :
    Option (Folders × FS) :=
  match get_level1_folder org fs with
  | none => none
  | some (level1, fsA) =>
    match ensure_path_exists fsA
        (fsJoin level1 (create_client_state_key ci.client ci.state org.client_name_max_length)) with
    | none => none
    | some fsB =>
      match ensure_path_exists fsB
          (fsJoin (fsJoin level1 (create_client_state_key ci.client ci.state org.client_name_max_length))
            ("Version-".toList ++ org.timestamp)) with
      | none => none
      | some fsC =>
        let level2 := fsJoin level1 (create_client_state_key ci.client ci.state org.client_name_max_length)
        let version := fsJoin level2 ("Version-".toList ++ org.timestamp)
        let cl := sanitize_filename ci.client 200
        let inc := org.include_client_name ||
          ((List.lookup (ci.client ++ '-' :: get_state_code ci.state)
            org.client_folder_settings).getD false)
        match ensure_path_exists fsC (fsJoin version (catFolderName "GSTR-3B Exports".toList cl inc)) with
        | none => none
        | some fsD =>
          match ensure_path_exists fsD (fsJoin version (catFolderName "Other ITC related files".toList cl inc)) with
          | none => none
          | some fsE =>
            match ensure_path_exists fsE (fsJoin version (catFolderName "Sales related files".toList cl inc)) with
            | none => none
            | some fsF =>
              some ({ level1 := level1, level2 := level2, version := version,
                      gstr3b := fsJoin version (catFolderName "GSTR-3B Exports".toList cl inc),
                      itc := fsJoin version (catFolderName "Other ITC related files".toList cl inc),
                      sales := fsJoin version (catFolderName "Sales related files".toList cl inc) },
                    fsF)

/-- The per-file outcome record of `_organize_single_file`. -/
structure OrgResult where
  filename : List Char
  file_type : List Char
  source : FsPath
  destination : Option FsPath
  status : List Char
  error : Option (List Char)
  backup : Option FsPath
  sanitized_filename : Option (List Char)
deriving DecidableEq

/-- `FileOrganizer._get_destination_folder`: the fixed category-to-folder
table; `Annual Report` routes into the version folder. -/
def get_destination_folder (ft : List Char) (f : Folders) : Option FsPath :=
  if ft = "GSTR-3B Export".toList then some f.gstr3b
  else if ft = "GSTR-2B Reco".toList then some f.itc
  else if ft = "IMS Reco".toList then some f.itc
  else if ft = "Sales".toList then some f.sales
  else if ft = "Sales Reco".toList then some f.sales
  else if ft = "Annual Report".toList then some f.version
  else none

/-- The copy tail of `_organize_single_file`: verified copy, `Success` on
`true`, otherwise the `Failed` result carries `Copy operation failed`. -/
def organizeCopy (base : OrgResult) (fs : FS) (src dst : FsPath)
    (corrupt : List Nat → List Nat) : OrgResult × FS :=
  if (safe_copy_file fs src dst true corrupt).1 then
    ({ base with status := "Success".toList }, (safe_copy_file fs src dst true corrupt).2)
  else
    ({ base with error := some "Copy operation failed".toList },
     (safe_copy_file fs src dst true corrupt).2)

/-- `FileOrganizer._organize_single_file`: resolve the destination folder,
sanitize the destination name, apply the mode-specific collision policy
(fresh: backup aside; resume: skip untouched; rerun: fall through), then
copy with verification. -/
def organize_single_file (org : Organizer) (folders : Folders) (fs : FS)
    (ft : List Char) (fd : FileData) (corrupt : List Nat → List Nat) :
    OrgResult × FS :=
  match get_destination_folder ft folders with
  | none =>
    ({ filename := fd.name, file_type := ft, source := fd.full_path,
       destination := none, status := "Failed".toList,
       error := some ("No destination folder for type: ".toList ++ ft),
       backup := none, sanitized_filename := none }, fs)
  | some dest_folder =>
    let dest_path := fsJoin dest_folder (sanitize_filename fd.name 200)
    let base : OrgResult :=
      { filename := fd.name, file_type := ft, source := fd.full_path,
        destination := some dest_path, status := "Failed".toList, error := none,
        backup := none, sanitized_filename := some (sanitize_filename fd.name 200) }
    if pathExists fs dest_path then
      match org.processing_mode with
      | .resume =>
        ({ base with
           status := "Skipped".toList,
           error := some "File already exists".toList }, fs)
      | .fresh =>
        organizeCopy { base with backup := (create_backup fs org.safe_timestamp dest_path).1 }
          (create_backup fs org.safe_timestamp dest_path).2 fd.full_path dest_path corrupt
      | .rerun => organizeCopy base fs fd.full_path dest_path corrupt
    else organizeCopy base fs fd.full_path dest_path corrupt

/-- The upfront `(file_type, file_data)` collection of `organize_files`. -/
def allFilesOf : List (List Char × List FileData) → List (List Char × FileData)
  | [] => []
  | (t, fds) :: rest => fds.map (fun fd => (t, fd)) ++ allFilesOf rest

/-- The in-place rename of the matched record: first file of the list with
the given source path gets `name` and `sanitized_name` set. -/
def updateFirstFD : List FileData → FsPath → List Char → List FileData
  | [], _, _ => []
  | f :: fsd, fp, nn =>
    if f.full_path = fp then
      { f with name := nn, sanitized_name := some nn } :: fsd
    else f :: updateFirstFD fsd fp nn

/-- `client_info['files'][file_type]` update: the (first) entry with the
given type key has its matching file renamed. -/
def updateFiles : List (List Char × List FileData) → List Char → FsPath → List Char →
    List (List Char × List FileData)
  | [], _, _, _ => []
  | (t, l) :: rest, ft, fp, nn =>
    if t = ft then (t, updateFirstFD l fp nn) :: rest
    else (t, l) :: updateFiles rest ft fp nn

/-- `Path(result['destination']).name`. -/
def lastNameOf (p : Option FsPath) : List Char := (p.getD []).getLast?.getD []

/-- One iteration of the `organize_files` loop: run the single-file
materialization, append its result, and on `Success` write the sanitized
name back into the client record. -/
def orgStep (org : Organizer) (folders : Folders) (corrupt : List Nat → List Nat)
    (acc : List OrgResult × ClientRecord × FS) (tfd : List Char × FileData) :
    List OrgResult × ClientRecord × FS :=
  (acc.1 ++ [(organize_single_file org folders acc.2.2 tfd.1 tfd.2 corrupt).1],
   (if (organize_single_file org folders acc.2.2 tfd.1 tfd.2 corrupt).1.status
        = "Success".toList then
      { acc.2.1 with
        files := updateFiles acc.2.1.files tfd.1 tfd.2.full_path
          (lastNameOf (organize_single_file org folders acc.2.2 tfd.1 tfd.2 corrupt).1.destination) }
    else acc.2.1),
   (organize_single_file org folders acc.2.2 tfd.1 tfd.2 corrupt).2)

/-- `FileOrganizer.organize_files`: collect all files upfront, then fold
the per-file step over them (fail-soft: every file contributes exactly one
result). -/
def organize_files (org : Organizer) (folders : Folders) (ci : ClientRecord)
    (fs : FS) (corrupt : List Nat → List Nat) :
    List OrgResult × ClientRecord × FS :=
  (allFilesOf ci.files).foldl (orgStep org folders corrupt) ([], ci, fs)

/-- The record transformation performed by a successful materialization
(both the `name` and `sanitized_name` fields receive the sanitized name). -/
def applySanitized (fd : FileData) : FileData :=
  { fd with
    name := sanitize_filename fd.name 200,
    sanitized_name := some (sanitize_filename fd.name 200) }

/-- All file records of a category map, in order. -/
def allRecordsOf : List (List Char × List FileData) → List FileData
  | [] => []
  | (_, fds) :: rest => fds ++ allRecordsOf rest

/-- Frame relation on one record: untouched, or renamed by a successful
materialization. -/
def fdRel (a b : FileData) : Prop := b = a ∨ b = applySanitized a

/-- Frame relation on the whole category map: same shape and keys,
records pointwise untouched-or-renamed. -/
def filesRel (orig cur : List (List Char × List FileData)) : Prop :=
  List.Forall₂ (fun p q => p.1 = q.1 ∧ List.Forall₂ fdRel p.2 q.2) orig cur

/-! ## Concrete fixtures used by witnesses and counterexamples -/

def fxFolders : Folders :=
  { level1 := ["root".toList],
    level2 := ["root".toList, "c".toList],
    version := ["root".toList, "c".toList, "v".toList],
    gstr3b := ["root".toList, "c".toList, "v".toList, "g".toList],
    itc := ["root".toList, "c".toList, "v".toList, "i".toList],
    sales := ["root".toList, "c".toList, "v".toList, "s".toList] }

def fxOrgResume : Organizer :=
  mkOrganizer ["root".toList] .resume false [] 35
    "010125 1200".toList "010125_1200".toList

def fxOrgFresh : Organizer :=
  mkOrganizer ["root".toList] .fresh false [] 35
    "010125 1200".toList "010125_1200".toList

def fxSalesFD : FileData :=
  { name := "Sales-A-Goa-Apr-May.xlsx".toList,
    full_path := ["srcdir".toList, "Sales-A-Goa-Apr-May.xlsx".toList],
    size := 3, modified := 1, created := 1, extension := ".xlsx".toList,
    ftype := "Sales".toList, category := "Sales".toList,
    client := "A".toList, state := "Goa".toList, sanitized_name := none }

/-- Source file present and the sanitized destination already existing. -/
def fxFSwithDest : FS :=
  { files :=
      [ (["srcdir".toList, "Sales-A-Goa-Apr-May.xlsx".toList], [1, 2, 3]),
        (["root".toList, "c".toList, "v".toList, "s".toList,
          "Sales-A-Goa-Apr-May.xlsx".toList], [9]) ],
    dirs := [(["root".toList], 0)], now := 5 }

/-- Source file present, destination free. -/
def fxFSsrcOnly : FS :=
  { files := [ (["srcdir".toList, "Sales-A-Goa-Apr-May.xlsx".toList], [1, 2, 3]) ],
    dirs := [(["root".toList], 0)], now := 5 }

/-- A file whose name changes under sanitization (space becomes `_`). -/
def fxSpacedFD : FileData :=
  { name := "GSTR3B-Acme Ltd-Goa-Apr.xlsx".toList,
    full_path := ["srcdir".toList, "GSTR3B-Acme Ltd-Goa-Apr.xlsx".toList],
    size := 3, modified := 1, created := 1, extension := ".xlsx".toList,
    ftype := "GSTR-3B Export".toList, category := "GSTR3B".toList,
    client := "Acme".toList, state := "Goa".toList, sanitized_name := none }

def fxSpacedFS : FS :=
  { files := [ (["srcdir".toList, "GSTR3B-Acme Ltd-Goa-Apr.xlsx".toList], [1, 2, 3]) ],
    dirs := [(["root".toList], 0)], now := 5 }

def fxClient : ClientRecord :=
  { emptyClientRecord with client := "Acme".toList, state := "Goa".toList }

def fxEmptyFS : FS := { files := [], dirs := [], now := 0 }

def fxDestSales : FsPath := ["root".toList, "c".toList, "v".toList, "s".toList]

def fxDstPath : FsPath := fsJoin fxDestSales (sanitize_filename fxSalesFD.name 200)

def fxFS1 : FS := addDirs fxFSsrcOnly (prefixesOf fxDstPath.dropLast)

/-- `fxFSwithDest` right after the fresh-mode collision backup. -/
def fxFSbak : FS :=
  (create_backup fxFSwithDest fxOrgFresh.safe_timestamp fxDstPath).2

/-- `fxFSbak` after the destination parent has been ensured. -/
def fxFS1b : FS := addDirs fxFSbak (prefixesOf fxDstPath.dropLast)

/-- A corrupting copy: every write lands empty (sizes never match). -/
def noBytes : List Nat → List Nat := fun _ => []

/-- The filesystem after the failed-verification cleanup of
`safe_copy_file`: the freshly written `p` is filtered back out. -/
def fsRemove (fs : FS) (p : FsPath) (w : List Nat) : FS :=
  { fs with files := (setFileAssoc fs.files p w).filter (fun e => decide (e.1 ≠ p)) }

/-- A one-file client record whose file name changes under sanitization. -/
def fxSpacedCI : ClientRecord :=
  { emptyClientRecord with
    client := "Acme".toList,
    state := "Goa".toList,
    files := [("GSTR-3B Export".toList, [fxSpacedFD])] }

/-- The concrete folder structure built for `fxClient` on the empty
filesystem (first run of the builder). -/
def fxPair7 : Folders × FS :=
  (create_client_structure fxOrgFresh fxClient fxEmptyFS).getD
    (⟨[], [], [], [], [], []⟩, fxEmptyFS)

-- ===== THEOREMS =====

/-! ## Character-level lemmas for the ASCII case model -/

theorem toNat_ofNat_valid (n : Nat) (h : n.isValidChar) : (Char.ofNat n).toNat = n := by
  simp [Char.ofNat, h, Char.ofNatAux, Char.toNat, UInt32.toNat, BitVec.toNat_ofNatLt]

theorem toUpper_toLower (c : Char) : (c.toLower).toUpper = c.toUpper := by
  simp only [Char.toLower, Char.toUpper]
  by_cases h : c.toNat ≥ 65 ∧ c.toNat ≤ 90
  · rw [if_pos h]
    have hv : (c.toNat + 32).isValidChar := Or.inl (by omega)
    have ht : (Char.ofNat (c.toNat + 32)).toNat = c.toNat + 32 := toNat_ofNat_valid _ hv
    simp only [ht]
    rw [if_pos (by omega), if_neg (by omega)]
    have h2 : c.toNat + 32 - 32 = c.toNat := by omega
    rw [h2, Char.ofNat_toNat]
  · simp only [if_neg h]

theorem toLower_toLower (c : Char) : (c.toLower).toLower = c.toLower := by
  simp only [Char.toLower]
  by_cases h : c.toNat ≥ 65 ∧ c.toNat ≤ 90
  · rw [if_pos h]
    have hv : (c.toNat + 32).isValidChar := Or.inl (by omega)
    have ht : (Char.ofNat (c.toNat + 32)).toNat = c.toNat + 32 := toNat_ofNat_valid _ hv
    simp only [ht]
    rw [if_neg (by omega)]
  · simp only [if_neg h]

theorem isWhitespace_big (d : Char) (hd : 33 ≤ d.toNat) : d.isWhitespace = false := by
  have h1 : d ≠ ' ' := by intro h; rw [h] at hd; exact absurd hd (by decide)
  have h2 : d ≠ '\t' := by intro h; rw [h] at hd; exact absurd hd (by decide)
  have h3 : d ≠ '\r' := by intro h; rw [h] at hd; exact absurd hd (by decide)
  have h4 : d ≠ '\n' := by intro h; rw [h] at hd; exact absurd hd (by decide)
  simp [Char.isWhitespace, h1, h2, h3, h4]

theorem isWhitespace_toLower (c : Char) : (c.toLower).isWhitespace = c.isWhitespace := by
  simp only [Char.toLower]
  by_cases h : c.toNat ≥ 65 ∧ c.toNat ≤ 90
  · rw [if_pos h]
    have hv : (c.toNat + 32).isValidChar := Or.inl (by omega)
    have ht : (Char.ofNat (c.toNat + 32)).toNat = c.toNat + 32 := toNat_ofNat_valid _ hv
    rw [isWhitespace_big _ (by omega), isWhitespace_big _ (by omega)]
  · simp only [if_neg h]

/-! ## String-level lemmas -/

theorem map_toLower_idem (l : List Char) :
    (l.map Char.toLower).map Char.toLower = l.map Char.toLower := by
  rw [List.map_map]
  exact List.map_congr_left fun c _ => toLower_toLower c

theorem pyStrip_map_toLower (l : List Char) :
    pyStrip (l.map Char.toLower) = (pyStrip l).map Char.toLower := by
  have hcomp : (Char.isWhitespace ∘ Char.toLower) = Char.isWhitespace := by
    funext c
    exact isWhitespace_toLower c
  simp only [pyStrip, List.dropWhile_map, hcomp]
  rw [← List.map_reverse, List.dropWhile_map, hcomp, List.map_reverse]

theorem pyStrip_nil : pyStrip [] = [] := rfl

theorem pyStrip_eq_rdrop (l : List Char) :
    pyStrip l = List.rdropWhile Char.isWhitespace (l.dropWhile Char.isWhitespace) := rfl

theorem dropWhile_rdropWhile (p : Char → Bool) (x : List Char) (h : x.dropWhile p = x) :
    (x.rdropWhile p).dropWhile p = x.rdropWhile p := by
  cases x with
  | nil => simp [List.rdropWhile]
  | cons a as =>
    have ha : ¬ p a = true := by
      intro hp
      rw [List.dropWhile_cons_of_pos hp] at h
      have hlen : (as.dropWhile p).length ≤ as.length :=
        (List.dropWhile_sublist p).length_le
      rw [h] at hlen
      simp at hlen
    cases hr : List.rdropWhile p (a :: as) with
    | nil => simp
    | cons b bs =>
      obtain ⟨t, ht⟩ := List.rdropWhile_prefix p (a :: as)
      rw [hr] at ht
      rw [List.cons_append] at ht
      have hb : b = a := (List.cons.injEq _ _ _ _ ▸ ht).1
      rw [hb]
      exact List.dropWhile_cons_of_neg ha

theorem pyStrip_idem (l : List Char) : pyStrip (pyStrip l) = pyStrip l := by
  rw [pyStrip_eq_rdrop, pyStrip_eq_rdrop,
      dropWhile_rdropWhile _ _ (List.dropWhile_idempotent _ _),
      List.rdropWhile_idempotent]

theorem take_map_toUpper_toLower (name : List Char) (n : Nat) :
    ((name.map Char.toLower).take n).map Char.toUpper = (name.take n).map Char.toUpper := by
  rw [← List.map_take, List.map_map]
  exact List.map_congr_left fun c _ => toUpper_toLower c

theorem state_code_values_nonempty {k c : List Char}
    (h : List.lookup k STATE_CODE_MAPPING = some c) : c.isEmpty = false := by
  rw [List.lookup_eq_some_iff] at h
  obtain ⟨l1, l2, heq, -⟩ := h
  have hmem : (k, c) ∈ STATE_CODE_MAPPING := by rw [heq]; simp
  have hsnd : c ∈ STATE_CODE_MAPPING.map Prod.snd := by
    exact List.mem_map_of_mem Prod.snd hmem
  exact (by decide : ∀ v ∈ STATE_CODE_MAPPING.map Prod.snd, v.isEmpty = false) c hsnd

theorem stateCodeFallback_map_toLower (clean name : List Char) :
    stateCodeFallback clean (name.map Char.toLower) = stateCodeFallback clean name := by
  unfold stateCodeFallback
  by_cases h : 2 ≤ (splitWS clean).length
  · rw [if_pos h, if_pos h]
  · rw [if_neg h, if_neg h]
    exact take_map_toUpper_toLower name 3

theorem map_toLower_eq_nil_iff (l : List Char) : l.map Char.toLower = [] ↔ l = [] := by
  constructor
  · intro h
    cases l with
    | nil => rfl
    | cons a as => simp at h
  · intro h; rw [h]; rfl

/-- C2 (amended): the jurisdiction normalizer is fully case-insensitive
(`normalize(lower(name)) = normalize(name)`), and is
leading/trailing-whitespace-insensitive whenever the cleaned name hits the
lookup table or is multi-word; a single-word unknown name yields the first
three characters OF THE ORIGINAL (unstripped) argument upper-cased, so
leading whitespace does leak into the fallback code. -/
theorem get_state_code_amended (name : List Char) :
    get_state_code (name.map Char.toLower) = get_state_code name ∧
    (pyStrip name ≠ [] →
      (List.lookup ((pyStrip name).map Char.toLower) STATE_CODE_MAPPING ≠ none ∨
        2 ≤ (splitWS ((pyStrip name).map Char.toLower)).length) →
      get_state_code (pyStrip name) = get_state_code name) ∧
    (name ≠ [] →
      List.lookup ((pyStrip name).map Char.toLower) STATE_CODE_MAPPING = none →
      (splitWS ((pyStrip name).map Char.toLower)).length < 2 →
      get_state_code name = (name.take 3).map Char.toUpper) := by
  have hclean : (pyStrip (name.map Char.toLower)).map Char.toLower
      = (pyStrip name).map Char.toLower := by
    rw [pyStrip_map_toLower, map_toLower_idem]
  have hcleanS : (pyStrip (pyStrip name)).map Char.toLower
      = (pyStrip name).map Char.toLower := by
    rw [pyStrip_idem]
  refine ⟨?_, ?_, ?_⟩
  · by_cases h0 : name = []
    · subst h0; rfl
    · have h1 : name.map Char.toLower ≠ [] := by
        intro h; exact h0 ((map_toLower_eq_nil_iff name).mp h)
      unfold get_state_code
      rw [if_neg h1, if_neg h0, hclean]
      cases hl : List.lookup ((pyStrip name).map Char.toLower) STATE_CODE_MAPPING with
      | some code => simp [state_code_values_nonempty hl]
      | none => exact stateCodeFallback_map_toLower _ name
  · intro h0 hdis
    have h0' : name ≠ [] := by
      intro h; rw [h] at h0; exact h0 pyStrip_nil
    unfold get_state_code
    rw [if_neg h0, if_neg h0', hcleanS]
    cases hl : List.lookup ((pyStrip name).map Char.toLower) STATE_CODE_MAPPING with
    | some code => simp [state_code_values_nonempty hl]
    | none =>
      rcases hdis with hdis | hdis
      · exact absurd hl hdis
      · simp [stateCodeFallback, hdis]
  · intro h0 hl hw
    unfold get_state_code
    rw [if_neg h0, hl]
    have hlt : ¬ 2 ≤ (splitWS ((pyStrip name).map Char.toLower)).length := by omega
    simp [stateCodeFallback, hlt]

/-- Witness for C2 (amended) at the unknown single-word name
`" timbuktu "`: all three hypotheses are discharged concretely and the
fallback takes the first three characters of the original argument. -/
theorem get_state_code_amended_witness :
    get_state_code " timbuktu ".toList = (" timbuktu ".toList.take 3).map Char.toUpper :=
  (get_state_code_amended " timbuktu ".toList).2.2 (by decide) (by decide) (by decide)

/-- C2 counterexample: the claim as stated demands
`normalize(name) = normalize(strip(lower(name)))` for every name and that
`" timbuktu "` and `"TIMBUKTU"` yield the same code; in fact the single-word
fallback upper-cases the UNSTRIPPED argument, giving `" TI"` versus `"TIM"`. -/
theorem get_state_code_whitespace_cex :
    get_state_code " timbuktu ".toList = " TI".toList ∧
    get_state_code "TIMBUKTU".toList = "TIM".toList ∧
    get_state_code "Timbuktu".toList = "TIM".toList ∧
    get_state_code " timbuktu ".toList ≠
      get_state_code ((pyStrip " timbuktu ".toList).map Char.toLower) := by
  refine ⟨by decide, by decide, by decide, by decide⟩

/-- C10: normalizing an empty (falsy) jurisdiction name returns it unchanged —
no table lookup, no fallback abbreviation. -/
theorem get_state_code_empty : get_state_code [] = [] := rfl

/-- C4 (amended): for every client, jurisdiction and positive maximum
length, the length-capped key is at most the maximum; it ends with `-` plus
the full jurisdiction code whenever at least six characters remain for the
client portion (i.e. `max - len(code) - 1 > 5`), but when that margin is
five or fewer the WHOLE key — jurisdiction code included — is truncated.
A configured maximum `≤ 0` is clamped to the default 35. -/
theorem create_client_state_key_amended (client state : List Char) (m n : ℤ)
    (hm : 0 < m) (hn : n ≤ 0) :
    ((create_client_state_key client state m).length : ℤ) ≤ m ∧
    (5 < m - (get_state_code state).length - 1 →
      ∃ pre, create_client_state_key client state m = pre ++ '-' :: get_state_code state) ∧
    clampClientNameMaxLength n = 35 ∧ clampClientNameMaxLength m = m := by
  have hc1 : clampClientNameMaxLength n = 35 := by
    unfold clampClientNameMaxLength
    rw [if_neg (by omega)]
  have hc2 : clampClientNameMaxLength m = m := by
    unfold clampClientNameMaxLength
    rw [if_pos hm]
  unfold create_client_state_key
  generalize reSubWord "limited".toList "Ltd".toList
    (reSubWord "private".toList "Pvt".toList client) = cc
  by_cases h1 : ((cc ++ '-' :: get_state_code state).length : ℤ) > m
  · rw [if_pos h1]
    by_cases h2 : m - ((get_state_code state).length : ℤ) - 1 > 5
    · rw [if_pos h2]
      refine ⟨?_, fun _ => ⟨pyTake cc (m - ((get_state_code state).length : ℤ) - 1), rfl⟩,
        hc1, hc2⟩
      have hav : (0:ℤ) ≤ m - ((get_state_code state).length : ℤ) - 1 := by omega
      simp only [pyTake, if_pos hav, List.length_append, List.length_cons, List.length_take]
      have := Int.toNat_of_nonneg hav
      push_cast
      omega
    · rw [if_neg h2]
      refine ⟨?_, fun hcon => absurd hcon h2, hc1, hc2⟩
      simp only [pyTake, if_pos (le_of_lt hm), List.length_take]
      have := Int.toNat_of_nonneg (le_of_lt hm)
      push_cast
      omega
  · rw [if_neg h1]
    exact ⟨by omega, fun _ => ⟨cc, rfl⟩, hc1, hc2⟩

/-- Witness for C4 (amended) at client `"Acme Industries Ltd"`, state
`"Maharashtra"`, maximum 35, clamp input 0. -/
theorem create_client_state_key_amended_witness :
    ((create_client_state_key "Acme Industries Ltd".toList "Maharashtra".toList 35).length : ℤ) ≤ 35 ∧
    (5 < 35 - ((get_state_code "Maharashtra".toList).length : ℤ) - 1 →
      ∃ pre, create_client_state_key "Acme Industries Ltd".toList "Maharashtra".toList 35
        = pre ++ '-' :: get_state_code "Maharashtra".toList) ∧
    clampClientNameMaxLength 0 = 35 ∧ clampClientNameMaxLength 35 = 35 :=
  create_client_state_key_amended "Acme Industries Ltd".toList "Maharashtra".toList
    35 0 (by decide) (by decide)

/-- C4 counterexample: with client `"Abcdefgh"`, state `"Goa"` (code `GA`)
and positive maximum 8, only five characters remain for the client portion,
so the code path truncates the WHOLE key: the result `"Abcdefgh"` does not
end with `-GA`, contradicting the claim that truncation never trims the
jurisdiction code. -/
theorem create_client_state_key_cex :
    create_client_state_key "Abcdefgh".toList "Goa".toList 8 = "Abcdefgh".toList ∧
    get_state_code "Goa".toList = "GA".toList ∧
    ¬ ∃ pre, create_client_state_key "Abcdefgh".toList "Goa".toList 8
      = pre ++ '-' :: get_state_code "Goa".toList := by
  refine ⟨by decide, by decide, ?_⟩
  rintro ⟨pre, h⟩
  rw [(by decide : create_client_state_key "Abcdefgh".toList "Goa".toList 8
    = "Abcdefgh".toList)] at h
  rw [(by decide : get_state_code "Goa".toList = "GA".toList)] at h
  have hlast := congrArg List.getLast? h
  rw [List.getLast?_append] at hlast
  simp at hlast

theorem matchLitCI_none_of_mismatch {lit s : List Char} {i : Nat} {c0 c1 : Char}
    (h0 : s[i]? = some c0) (h1 : lit[i]? = some c1) (hne : c0.toLower ≠ c1) :
    matchLitCI lit s = none := by
  have hi : i < lit.length := by
    rcases List.getElem?_eq_some_iff.mp h1 with ⟨hlt, -⟩
    exact hlt
  unfold matchLitCI
  rw [if_neg]
  intro hEq
  have hx := congrArg (fun l => l[i]?) hEq
  simp only at hx
  rw [List.getElem?_map, List.getElem?_take_of_lt hi, h0, h1] at hx
  simp only [Option.map_some'] at hx
  exact hne (by injection hx)

theorem take_map_index {s pat : List Char} {n i : Nat} {c1 : Char}
    (h : (s.take n).map Char.toLower = pat) (hi : i < n) (hp : pat[i]? = some c1) :
    ∃ c0, s[i]? = some c0 ∧ c0.toLower = c1 := by
  have hx := congrArg (fun l => l[i]?) h
  simp only at hx
  rw [List.getElem?_map, List.getElem?_take_of_lt hi, hp] at hx
  cases hs0 : s[i]? with
  | none => rw [hs0] at hx; simp at hx
  | some c0 =>
    rw [hs0] at hx
    simp only [Option.map_some'] at hx
    exact ⟨c0, rfl, by injection hx⟩

theorem applyGroupStep_const (r : ParseResult) (n g : List Char) :
    (applyGroupStep r n g).parsed = r.parsed ∧
    (applyGroupStep r n g).ftype = r.ftype ∧
    (applyGroupStep r n g).category = r.category ∧
    (applyGroupStep r n g).folder = r.folder ∧
    (applyGroupStep r n g).pattern = r.pattern ∧
    (applyGroupStep r n g).filename = r.filename := by
  unfold applyGroupStep
  split
  · exact ⟨rfl, rfl, rfl, rfl, rfl, rfl⟩
  split
  · exact ⟨rfl, rfl, rfl, rfl, rfl, rfl⟩
  split
  · exact ⟨rfl, rfl, rfl, rfl, rfl, rfl⟩
  · exact ⟨rfl, rfl, rfl, rfl, rfl, rfl⟩

theorem applyGroupStep_congr (r r' : ParseResult) (n g : List Char)
    (hc : r.client = r'.client) (hs : r.state = r'.state)
    (hm : r.metadata = r'.metadata) :
    (applyGroupStep r n g).client = (applyGroupStep r' n g).client ∧
    (applyGroupStep r n g).state = (applyGroupStep r' n g).state ∧
    (applyGroupStep r n g).metadata = (applyGroupStep r' n g).metadata := by
  unfold applyGroupStep
  split
  · exact ⟨hc, hs, hm⟩
  split
  · exact ⟨rfl, hs, hm⟩
  split
  · exact ⟨hc, rfl, hm⟩
  · exact ⟨hc, hs, by rw [hm]⟩

theorem applyGroups_const (l : List (List Char × List Char)) (r : ParseResult) :
    (applyGroups r l).parsed = r.parsed ∧
    (applyGroups r l).ftype = r.ftype ∧
    (applyGroups r l).category = r.category ∧
    (applyGroups r l).folder = r.folder ∧
    (applyGroups r l).pattern = r.pattern ∧
    (applyGroups r l).filename = r.filename := by
  induction l generalizing r with
  | nil => exact ⟨rfl, rfl, rfl, rfl, rfl, rfl⟩
  | cons p rest ih =>
    obtain ⟨n, g⟩ := p
    have hstep := applyGroupStep_const r n g
    have hrec := ih (applyGroupStep r n g)
    exact ⟨hrec.1.trans hstep.1, hrec.2.1.trans hstep.2.1,
      hrec.2.2.1.trans hstep.2.2.1, hrec.2.2.2.1.trans hstep.2.2.2.1,
      hrec.2.2.2.2.1.trans hstep.2.2.2.2.1, hrec.2.2.2.2.2.trans hstep.2.2.2.2.2⟩

theorem applyGroups_congr (l : List (List Char × List Char)) :
    ∀ r r' : ParseResult, r.client = r'.client → r.state = r'.state →
      r.metadata = r'.metadata →
      (applyGroups r l).client = (applyGroups r' l).client ∧
      (applyGroups r l).state = (applyGroups r' l).state := by
  induction l with
  | nil => exact fun r r' hc hs _ => ⟨hc, hs⟩
  | cons p rest ih =>
    obtain ⟨n, g⟩ := p
    intro r r' hc hs hm
    have hstep := applyGroupStep_congr r r' n g hc hs hm
    exact ih _ _ hstep.1 hstep.2.1 hstep.2.2

/-- C3 (amended): the parenthesized-counter tolerance belongs to the GSTR3B
rule only.  For every filename beginning (case-insensitively) with the
literal `GSTR3B-`, prefixing a counter `"(1) "` changes neither
classification success nor the type, category, client or jurisdiction of
the result. -/
theorem parse_filename_counter_amended (s : List Char)
    (h : (s.take 7).map Char.toLower = "gstr3b-".toList) :
    (parse_filename ("(1) ".toList ++ s)).parsed = (parse_filename s).parsed ∧
    (parse_filename ("(1) ".toList ++ s)).ftype = (parse_filename s).ftype ∧
    (parse_filename ("(1) ".toList ++ s)).category = (parse_filename s).category ∧
    (parse_filename ("(1) ".toList ++ s)).client = (parse_filename s).client ∧
    (parse_filename ("(1) ".toList ++ s)).state = (parse_filename s).state := by
  obtain ⟨c0, hc0, hl0⟩ := take_map_index h (by omega)
    (by decide : ("gstr3b-".toList)[0]? = some 'g')
  obtain ⟨c4, hc4, hl4⟩ := take_map_index h (by omega)
    (by decide : ("gstr3b-".toList)[4]? = some '3')
  cases s with
  | nil => simp at hc0
  | cons a as =>
  have ha : a = c0 := by simpa using hc0
  subst ha
  have hnws : ¬ a.isWhitespace = true := by
    rw [← isWhitespace_toLower, hl0]
    decide
  have hnparen : a ≠ '(' := by
    intro he; rw [he] at hl0; exact absurd hl0 (by decide)
  have hsc1 : stripCounter (a :: as) = a :: as := by
    simp only [stripCounter]
    rw [if_neg hnparen]
  have hsc2 : stripCounter ("(1) ".toList ++ (a :: as))
      = List.dropWhile Char.isWhitespace (a :: as) := rfl
  have hsc2' : stripCounter ("(1) ".toList ++ (a :: as)) = a :: as := by
    rw [hsc2]
    exact List.dropWhile_cons_of_neg hnws
  have hm3 : matchGSTR3B ("(1) ".toList ++ (a :: as)) = matchGSTR3B (a :: as) := by
    unfold matchGSTR3B
    rw [hsc2', hsc1]
  have hp0 : ("(1) ".toList ++ (a :: as))[0]? = some '(' := by
    show (('(' :: '1' :: ')' :: ' ' :: (a :: as)) : List Char)[0]? = some '('
    simp
  have hs0 : (a :: as)[0]? = some a := by simp
  have hm1s : matchGSTR2BReco (a :: as) = none := by
    unfold matchGSTR2BReco
    rw [matchLitCI_none_of_mismatch hc4 (by decide : ("gstr-2b-reco-".toList)[4]? = some '-')
      (by rw [hl4]; decide)]
    rfl
  have hm1p : matchGSTR2BReco ("(1) ".toList ++ (a :: as)) = none := by
    unfold matchGSTR2BReco
    rw [matchLitCI_none_of_mismatch hp0 (by decide : ("gstr-2b-reco-".toList)[0]? = some 'g')
      (by decide)]
    rfl
  have hm2s : matchImsReco (a :: as) = none := by
    unfold matchImsReco
    rw [matchLitCI_none_of_mismatch hs0 (by decide : ("imsreco-".toList)[0]? = some 'i')
      (by rw [hl0]; decide)]
    rfl
  have hm2p : matchImsReco ("(1) ".toList ++ (a :: as)) = none := by
    unfold matchImsReco
    rw [matchLitCI_none_of_mismatch hp0 (by decide : ("imsreco-".toList)[0]? = some 'i')
      (by decide)]
    rfl
  have hm4s : matchSales (a :: as) = none := by
    unfold matchSales
    rw [matchLitCI_none_of_mismatch hs0 (by decide : ("sales-".toList)[0]? = some 's')
      (by rw [hl0]; decide)]
    rfl
  have hm4p : matchSales ("(1) ".toList ++ (a :: as)) = none := by
    unfold matchSales
    rw [matchLitCI_none_of_mismatch hp0 (by decide : ("sales-".toList)[0]? = some 's')
      (by decide)]
    rfl
  have hm5s : matchSalesReco (a :: as) = none := by
    unfold matchSalesReco
    rw [matchLitCI_none_of_mismatch hs0 (by decide : ("salesreco-".toList)[0]? = some 's')
      (by rw [hl0]; decide)]
    rfl
  have hm5p : matchSalesReco ("(1) ".toList ++ (a :: as)) = none := by
    unfold matchSalesReco
    rw [matchLitCI_none_of_mismatch hp0 (by decide : ("salesreco-".toList)[0]? = some 's')
      (by decide)]
    rfl
  have hm6s : matchAnnualReport (a :: as) = none := by
    unfold matchAnnualReport
    rw [matchLitCI_none_of_mismatch hs0 (by decide : ("annualreport-".toList)[0]? = some 'a')
      (by rw [hl0]; decide)]
    rfl
  have hm6p : matchAnnualReport ("(1) ".toList ++ (a :: as)) = none := by
    unfold matchAnnualReport
    rw [matchLitCI_none_of_mismatch hp0 (by decide : ("annualreport-".toList)[0]? = some 'a')
      (by decide)]
    rfl
  simp only [parse_filename, FILE_PATTERNS, tryPatterns, hm1s, hm1p, hm2s, hm2p,
    hm3, hm4s, hm4p, hm5s, hm5p, hm6s, hm6p]
  cases hg : matchGSTR3B (a :: as) with
  | some gs =>
    dsimp only
    refine ⟨?_, ?_, ?_, ?_, ?_⟩
    · simp only [(applyGroups_const _ _).1]
    · simp only [(applyGroups_const _ _).2.1]
    · simp only [(applyGroups_const _ _).2.2.1]
    · refine (applyGroups_congr _ _ _ ?_ ?_ ?_).1 <;> rfl
    · refine (applyGroups_congr _ _ _ ?_ ?_ ?_).2 <;> rfl
  | none => exact ⟨rfl, rfl, rfl, rfl, rfl⟩

/-- Witness for C3 (amended) at the concrete GSTR3B filename
`GSTR3B-Acme-Goa-Apr.xlsx`. -/
theorem parse_filename_counter_amended_witness :
    (parse_filename ("(1) ".toList ++ "GSTR3B-Acme-Goa-Apr.xlsx".toList)).parsed
      = (parse_filename "GSTR3B-Acme-Goa-Apr.xlsx".toList).parsed ∧
    (parse_filename ("(1) ".toList ++ "GSTR3B-Acme-Goa-Apr.xlsx".toList)).ftype
      = (parse_filename "GSTR3B-Acme-Goa-Apr.xlsx".toList).ftype ∧
    (parse_filename ("(1) ".toList ++ "GSTR3B-Acme-Goa-Apr.xlsx".toList)).category
      = (parse_filename "GSTR3B-Acme-Goa-Apr.xlsx".toList).category ∧
    (parse_filename ("(1) ".toList ++ "GSTR3B-Acme-Goa-Apr.xlsx".toList)).client
      = (parse_filename "GSTR3B-Acme-Goa-Apr.xlsx".toList).client ∧
    (parse_filename ("(1) ".toList ++ "GSTR3B-Acme-Goa-Apr.xlsx".toList)).state
      = (parse_filename "GSTR3B-Acme-Goa-Apr.xlsx".toList).state :=
  parse_filename_counter_amended "GSTR3B-Acme-Goa-Apr.xlsx".toList (by decide)

/-- C3 counterexample: `Sales-Acme-Goa-Apr-May.xlsx` classifies as a Sales
file, but the counter-prefixed `"(1) Sales-Acme-Goa-Apr-May.xlsx"` matches
no pattern at all — the other five regexes are anchored at the very start
of the filename, so the claimed counter tolerance for every pattern in the
bank is false. -/
theorem parse_filename_counter_cex :
    (parse_filename "Sales-Acme-Goa-Apr-May.xlsx".toList).parsed = true ∧
    (parse_filename "Sales-Acme-Goa-Apr-May.xlsx".toList).category = "Sales".toList ∧
    (parse_filename "Sales-Acme-Goa-Apr-May.xlsx".toList).client = "Acme".toList ∧
    (parse_filename "(1) Sales-Acme-Goa-Apr-May.xlsx".toList).parsed = false := by
  refine ⟨by decide, by decide, by decide, by decide⟩

theorem insertSorted_perm (a : List Char) (l : List (List Char)) :
    (insertSorted a l).Perm (a :: l) := by
  induction l with
  | nil => exact List.Perm.refl _
  | cons b bs ih =>
    unfold insertSorted
    by_cases h : lexLe a b
    · rw [if_pos h]
    · rw [if_neg h]
      exact (List.Perm.cons b ih).trans (List.Perm.swap a b bs)

theorem sortStrs_perm (l : List (List Char)) : (sortStrs l).Perm l := by
  induction l with
  | nil => exact List.Perm.refl _
  | cons a as ih =>
    unfold sortStrs
    exact (insertSorted_perm a (sortStrs as)).trans (List.Perm.cons a ih)

theorem contains_iff (l : List (List Char)) (a : List Char) :
    l.contains a = true ↔ a ∈ l := by
  simp

theorem contains_iff_path (l : List FsPath) (a : FsPath) :
    l.contains a = true ↔ a ∈ l := by
  simp

theorem setClientAssoc_lookup_self (reg : Registry) (k : List Char) (c : ClientRecord) :
    List.lookup k (setClientAssoc reg k c) = some c := by
  induction reg with
  | nil => simp [setClientAssoc]
  | cons p rest ih =>
    obtain ⟨k0, c0⟩ := p
    unfold setClientAssoc
    by_cases h : k0 = k
    · rw [if_pos h]; subst h; simp
    · rw [if_neg h]
      have hbeq : (k == k0) = false := beq_eq_false_iff_ne.mpr (Ne.symm h)
      rw [List.lookup_cons]
      simp [hbeq, ih]

theorem setClientAssoc_keys_mem (reg : Registry) (k : List Char) (c : ClientRecord)
    (h : k ∈ reg.map Prod.fst) :
    (setClientAssoc reg k c).map Prod.fst = reg.map Prod.fst := by
  induction reg with
  | nil => simp at h
  | cons p rest ih =>
    obtain ⟨k0, c0⟩ := p
    unfold setClientAssoc
    by_cases hk : k0 = k
    · rw [if_pos hk]; simp [hk]
    · rw [if_neg hk]
      simp only [List.map_cons] at h ⊢
      rcases List.mem_cons.mp h with h1 | h1
      · exact absurd h1.symm hk
      · rw [ih h1]

theorem setClientAssoc_keys_new (reg : Registry) (k : List Char) (c : ClientRecord)
    (h : ¬ k ∈ reg.map Prod.fst) :
    setClientAssoc reg k c = reg ++ [(k, c)] := by
  induction reg with
  | nil => rfl
  | cons p rest ih =>
    obtain ⟨k0, c0⟩ := p
    unfold setClientAssoc
    have hk : k0 ≠ k := by
      intro he; exact h (by simp [he])
    rw [if_neg hk, ih (fun hm => h (by simp [hm]))]
    rfl

theorem add_to_client_data_keys_nodup (reg : Registry) (fd : FileData)
    (h : (reg.map Prod.fst).Nodup) :
    ((add_to_client_data reg fd).map Prod.fst).Nodup := by
  unfold add_to_client_data
  by_cases hk : (fd.client ++ '-' :: get_state_code fd.state) ∈ reg.map Prod.fst
  · rw [setClientAssoc_keys_mem _ _ _ hk]; exact h
  · rw [setClientAssoc_keys_new _ _ _ hk]
    simp only [List.map_append, List.map_cons, List.map_nil]
    rw [List.nodup_append]
    exact ⟨h, List.nodup_singleton _, by
      simpa using fun (x : ClientRecord)
        (hmem : (fd.client ++ '-' :: get_state_code fd.state, x) ∈ reg) =>
        hk (List.mem_map_of_mem Prod.fst hmem)⟩

/-- C8 (amended): the registry keeps exactly one `ClientRecord` per
canonical key `{client}-{jurisdictionCode}` (keys stay pairwise distinct
under every add sequence), but the display strings stored on a record are
those of the LAST file added under its key — every add overwrites them. -/
theorem add_to_client_data_amended :
    (∀ fds : List FileData, ((addFiles [] fds).map Prod.fst).Nodup) ∧
    (∀ (reg : Registry) (fd : FileData),
      ∃ r : ClientRecord,
        List.lookup (fd.client ++ '-' :: get_state_code fd.state)
          (add_to_client_data reg fd) = some r ∧
        r.client = fd.client ∧ r.state = fd.state ∧
        r.state_code = get_state_code fd.state) := by
  constructor
  · intro fds
    have : ∀ (l : List FileData) (reg : Registry), (reg.map Prod.fst).Nodup →
        ((addFiles reg l).map Prod.fst).Nodup := by
      intro l
      induction l with
      | nil => exact fun reg h => h
      | cons fd rest ih =>
        intro reg h
        exact ih _ (add_to_client_data_keys_nodup reg fd h)
    exact this fds [] (by simp)
  · intro reg fd
    refine ⟨_, setClientAssoc_lookup_self _ _ _, rfl, rfl, rfl⟩

/-- C8 counterexample: adding a file spelled `Orissa` and then one spelled
`Odisha` (synonyms normalizing to the code `OD`) yields one record under
the key `Acme-OD` whose stored jurisdiction display string is the LAST
spelling `Odisha`, not the first-seen `Orissa` the claim demands. -/
theorem add_to_client_data_cex :
    (addFiles [] [fdOrissa, fdOdisha]).map Prod.fst = ["Acme-OD".toList] ∧
    (List.lookup "Acme-OD".toList (addFiles [] [fdOrissa, fdOdisha])).map
      ClientRecord.state = some "Odisha".toList ∧
    "Odisha".toList ≠ "Orissa".toList := by
  refine ⟨by decide, by decide, by decide⟩

theorem missingOf_mem (c : ClientRecord) (t : List Char) :
    t ∈ missingOf c ↔ t ∈ EXPECTED_FILE_TYPES ∧ ¬ t ∈ c.files.map Prod.fst := by
  unfold missingOf
  rw [(sortStrs_perm _).mem_iff, List.mem_filter]
  simp [foundTypesOf]

theorem pyRound1_hundred : pyRound1 100 = 100 := by
  unfold pyRound1
  have h1 : (100 : ℚ) * 10 + 1 / 2 = 2001 / 2 := by norm_num
  rw [h1]
  have h2 : ⌊(2001 / 2 : ℚ)⌋ = 1000 := by
    rw [Int.floor_eq_iff]
    constructor <;> norm_num
  rw [h2]
  norm_num

theorem pyRound1_third : pyRound1 (100 / 3) = 333 / 10 := by
  unfold pyRound1
  have h1 : (100 / 3 : ℚ) * 10 + 1 / 2 = 2003 / 6 := by norm_num
  rw [h1]
  have h2 : ⌊(2003 / 6 : ℚ)⌋ = 333 := by
    rw [Int.floor_eq_iff]
    constructor <;> norm_num
  rw [h2]
  norm_num

/-- C1: after completeness analysis, the missing list is exactly the
expected categories minus the found categories; completeness is
found/expected x 100 rounded to one decimal; the status follows the
missing-first precedence; a client covering every expected category with
single files (GSTR-3B may repeat) is `Complete` at 100.0; and a client
with files in exactly 2 of the 6 expected categories is `Missing 4 files`
at 33.3. -/
theorem analyzeClientRecord_props (c : ClientRecord) :
    (∀ t, t ∈ (analyzeClientRecord c).missing_files ↔
      t ∈ EXPECTED_FILE_TYPES ∧ ¬ t ∈ c.files.map Prod.fst) ∧
    (analyzeClientRecord c).completeness
      = pyRound1 (((foundTypesOf c).length : ℚ) / (EXPECTED_FILE_TYPES.length : ℚ) * 100) ∧
    ((analyzeClientRecord c).missing_files ≠ [] →
      (analyzeClientRecord c).status
        = "Missing ".toList ++ natToStr (analyzeClientRecord c).missing_files.length
          ++ " files".toList) ∧
    ((analyzeClientRecord c).missing_files = [] →
      (analyzeClientRecord c).extra_files ≠ [] →
      (analyzeClientRecord c).status = "Has duplicates".toList) ∧
    ((analyzeClientRecord c).missing_files = [] →
      (analyzeClientRecord c).extra_files = [] →
      (analyzeClientRecord c).status = "Complete".toList) ∧
    ((∀ t, t ∈ c.files.map Prod.fst ↔ t ∈ EXPECTED_FILE_TYPES) →
      (∀ p ∈ c.files, p.2.length = 1 ∨ p.1 = "GSTR-3B Export".toList) →
      (analyzeClientRecord c).status = "Complete".toList ∧
      (analyzeClientRecord c).completeness = 100) ∧
    ((foundTypesOf c).length = 2 →
      (∀ t ∈ c.files.map Prod.fst, t ∈ EXPECTED_FILE_TYPES) →
      (analyzeClientRecord c).status = "Missing 4 files".toList ∧
      (analyzeClientRecord c).completeness = 333 / 10) := by
  have hE6 : EXPECTED_FILE_TYPES.length = 6 := rfl
  refine ⟨fun t => missingOf_mem c t, ?_, ?_, ?_, ?_, ?_, ?_⟩
  · show completenessOf c = _
    unfold completenessOf
    rw [if_pos (by decide)]
  · intro hne
    have hne' : missingOf c ≠ [] := hne
    show statusOf c = _
    unfold statusOf
    rw [if_neg (fun hand => hne' hand.1), if_pos hne']
    rfl
  · intro h1 h2
    have h1' : missingOf c = [] := h1
    have h2' : extrasOf c ≠ [] := h2
    show statusOf c = _
    unfold statusOf
    rw [if_neg (fun hand => h2' hand.2), if_neg (fun hcond => hcond h1')]
  · intro h1 h2
    have h1' : missingOf c = [] := h1
    have h2' : extrasOf c = [] := h2
    show statusOf c = _
    unfold statusOf
    rw [if_pos ⟨h1', h2'⟩]
  · intro hKeys hOnce
    have hm0 : missingOf c = [] := by
      unfold missingOf
      have hf : EXPECTED_FILE_TYPES.filter
          (fun t => !(foundTypesOf c).contains t) = [] := by
        rw [List.filter_eq_nil_iff]
        intro t ht
        simp only [Bool.not_eq_true', Bool.not_eq_false]
        exact (contains_iff _ _).mpr
          (by simp only [foundTypesOf, List.mem_dedup]; exact (hKeys t).mpr ht)
      rw [hf]
      rfl
    have he0 : extrasOf c = [] := by
      unfold extrasOf
      rw [List.filterMap_eq_nil_iff]
      intro p hp
      rcases hOnce p hp with h1 | h1
      · rw [if_neg (fun hand => by rw [h1] at hand; exact absurd hand.1 (by decide))]
      · rw [if_neg (fun hand => hand.2 h1)]
    constructor
    · show statusOf c = _
      unfold statusOf
      rw [if_pos ⟨hm0, he0⟩]
    · have hperm : (foundTypesOf c).Perm EXPECTED_FILE_TYPES :=
        (List.perm_ext_iff_of_nodup (List.nodup_dedup _) (by decide)).2
          (fun t => by simp only [foundTypesOf, List.mem_dedup]; exact hKeys t)
      have hlen : (foundTypesOf c).length = 6 := hperm.length_eq.trans hE6
      show completenessOf c = 100
      unfold completenessOf
      rw [if_pos (by decide), hlen, hE6]
      have harg : ((6 : ℕ) : ℚ) / ((6 : ℕ) : ℚ) * 100 = 100 := by norm_num
      rw [harg, pyRound1_hundred]
  · intro hlen2 hsub
    have hnd : (foundTypesOf c).Nodup := List.nodup_dedup _
    have hpermF : (EXPECTED_FILE_TYPES.filter
        (fun t => (foundTypesOf c).contains t)).Perm (foundTypesOf c) := by
      refine (List.perm_ext_iff_of_nodup
        (List.Nodup.filter _ (by decide)) hnd).2 (fun t => ?_)
      rw [List.mem_filter]
      constructor
      · rintro ⟨-, hc⟩
        exact (contains_iff _ _).mp hc
      · intro ht
        refine ⟨?_, (contains_iff _ _).mpr ht⟩
        simp only [foundTypesOf, List.mem_dedup] at ht
        exact hsub t ht
    have h2 : (EXPECTED_FILE_TYPES.filter
        (fun t => (foundTypesOf c).contains t)).length = 2 :=
      hpermF.length_eq.trans hlen2
    have hsplit := (List.filter_append_perm
      (fun t => (foundTypesOf c).contains t) EXPECTED_FILE_TYPES).length_eq
    rw [List.length_append, hE6] at hsplit
    have hm4 : (missingOf c).length = 4 := by
      unfold missingOf
      rw [(sortStrs_perm _).length_eq]
      omega
    have hmne : missingOf c ≠ [] := by
      intro h0
      rw [h0] at hm4
      simp at hm4
    constructor
    · show statusOf c = _
      unfold statusOf
      rw [if_neg (fun hand => hmne hand.1), if_pos hmne, hm4]
      decide
    · show completenessOf c = 333 / 10
      unfold completenessOf
      rw [if_pos (by decide), hlen2, hE6]
      have harg : ((2 : ℕ) : ℚ) / ((6 : ℕ) : ℚ) * 100 = 100 / 3 := by norm_num
      rw [harg, pyRound1_third]

/-- Witness for C1 at a concrete registry record holding files in exactly
two expected categories. -/
theorem analyzeClientRecord_props_witness :
    (analyzeClientRecord { emptyClientRecord with
      files := [("GSTR-3B Export".toList, [fdOrissa]), ("Annual Report".toList, [fdOdisha])] }).status
      = "Missing 4 files".toList ∧
    (analyzeClientRecord { emptyClientRecord with
      files := [("GSTR-3B Export".toList, [fdOrissa]), ("Annual Report".toList, [fdOdisha])] }).completeness
      = 333 / 10 :=
  (analyzeClientRecord_props _).2.2.2.2.2.2 (by decide) (by decide)

/-- C5: under resume mode, a file whose sanitized destination already
exists is skipped: no copy, no backup, the filesystem — including the
existing destination bytes — is unchanged, and the result status is
`Skipped`. -/
theorem resume_skips_existing (org : Organizer) (folders : Folders) (fs : FS)
    (ft : List Char) (fd : FileData) (corrupt : List Nat → List Nat) (d : FsPath)
    (hmode : org.processing_mode = ProcessingMode.resume)
    (hdest : get_destination_folder ft folders = some d)
    (hex : pathExists fs (fsJoin d (sanitize_filename fd.name 200)) = true) :
    (organize_single_file org folders fs ft fd corrupt).1.status = "Skipped".toList ∧
    (organize_single_file org folders fs ft fd corrupt).2 = fs ∧
    (organize_single_file org folders fs ft fd corrupt).1.backup = none ∧
    (organize_single_file org folders fs ft fd corrupt).1.error
      = some "File already exists".toList := by
  unfold organize_single_file
  rw [hdest]
  simp [hex, hmode]

/-- Witness for C5 at a concrete resume-mode organizer with the
destination already present. -/
theorem resume_skips_existing_witness :
    (organize_single_file fxOrgResume fxFolders fxFSwithDest "Sales".toList
      fxSalesFD id).1.status = "Skipped".toList ∧
    (organize_single_file fxOrgResume fxFolders fxFSwithDest "Sales".toList
      fxSalesFD id).2 = fxFSwithDest ∧
    (organize_single_file fxOrgResume fxFolders fxFSwithDest "Sales".toList
      fxSalesFD id).1.backup = none ∧
    (organize_single_file fxOrgResume fxFolders fxFSwithDest "Sales".toList
      fxSalesFD id).1.error = some "File already exists".toList :=
  resume_skips_existing fxOrgResume fxFolders fxFSwithDest "Sales".toList fxSalesFD id
    (fxFolders.sales) (by decide) (by decide) (by decide)

theorem lookup_filter_ne (l : List (FsPath × List Nat)) (p : FsPath) :
    List.lookup p (l.filter (fun e => decide (e.1 ≠ p))) = none := by
  rw [List.lookup_eq_none_iff]
  intro q hq
  rw [List.mem_filter] at hq
  have h2 := hq.2
  simp only [decide_eq_true_eq] at h2
  simp only [bne_iff_ne, ne_eq]
  exact fun he => h2 he.symm

theorem addDirsGo_mem (now : Nat) : ∀ (qs : List FsPath) (ds : List (FsPath × Nat))
    (x : FsPath), x ∈ (addDirsGo now ds qs).map Prod.fst →
    x ∈ ds.map Prod.fst ∨ x ∈ qs := by
  intro qs
  induction qs with
  | nil => exact fun ds x hx => Or.inl hx
  | cons q rest ih =>
    intro ds x hx
    unfold addDirsGo at hx
    by_cases hc : (ds.map Prod.fst).contains q
    · rw [if_pos hc] at hx
      rcases ih ds x hx with h | h
      · exact Or.inl h
      · exact Or.inr (List.mem_cons_of_mem _ h)
    · rw [if_neg hc] at hx
      rcases ih _ x hx with h | h
      · rw [List.map_append] at h
        rcases List.mem_append.mp h with h2 | h2
        · exact Or.inl h2
        · simp only [List.map_cons, List.map_nil, List.mem_singleton] at h2
          subst h2
          exact Or.inr (List.mem_cons_self _ _)
      · exact Or.inr (List.mem_cons_of_mem _ h)

theorem addDirsGo_mono (now : Nat) : ∀ (qs : List FsPath) (ds : List (FsPath × Nat))
    (x : FsPath), x ∈ ds.map Prod.fst → x ∈ (addDirsGo now ds qs).map Prod.fst := by
  intro qs
  induction qs with
  | nil => exact fun ds x hx => hx
  | cons q rest ih =>
    intro ds x hx
    unfold addDirsGo
    by_cases hc : (ds.map Prod.fst).contains q
    · rw [if_pos hc]; exact ih ds x hx
    · rw [if_neg hc]
      exact ih _ x (by rw [List.map_append]; exact List.mem_append_left _ hx)

theorem addDirsGo_covers (now : Nat) : ∀ (qs : List FsPath) (ds : List (FsPath × Nat))
    (x : FsPath), x ∈ qs → x ∈ (addDirsGo now ds qs).map Prod.fst := by
  intro qs
  induction qs with
  | nil => intro ds x hx; exact absurd hx (List.not_mem_nil x)
  | cons q rest ih =>
    intro ds x hx
    unfold addDirsGo
    rcases List.mem_cons.mp hx with h | h
    · subst h
      by_cases hc : (ds.map Prod.fst).contains x
      · rw [if_pos hc]
        exact addDirsGo_mono now rest ds x ((contains_iff_path _ _).mp hc)
      · rw [if_neg hc]
        exact addDirsGo_mono now rest _ x
          (by rw [List.map_append]; exact List.mem_append_right _ (by simp))
    · by_cases hc : (ds.map Prod.fst).contains q
      · rw [if_pos hc]; exact ih ds x h
      · rw [if_neg hc]; exact ih _ x h

theorem addDirsGo_noop (now : Nat) : ∀ (qs : List FsPath) (ds : List (FsPath × Nat)),
    (∀ q ∈ qs, q ∈ ds.map Prod.fst) → addDirsGo now ds qs = ds := by
  intro qs
  induction qs with
  | nil => exact fun ds _ => rfl
  | cons q rest ih =>
    intro ds hall
    unfold addDirsGo
    rw [if_pos ((contains_iff_path _ _).mpr (hall q (List.mem_cons_self _ _)))]
    exact ih ds fun x hx => hall x (List.mem_cons_of_mem _ hx)

theorem ensure_eq_some {fs : FS} {p : FsPath} {fs1 : FS}
    (h : ensure_path_exists fs p = some fs1) :
    (prefixesOf p).any (fun q => isFile fs q) = false ∧
    fs1 = addDirs fs (prefixesOf p) := by
  unfold ensure_path_exists at h
  by_cases hc : (prefixesOf p).any (fun q => isFile fs q)
  · rw [if_pos hc] at h
    exact absurd h (by simp)
  · rw [if_neg hc] at h
    refine ⟨by simpa using hc, ?_⟩
    injection h with h2
    exact h2.symm

theorem ensure_files_now {fs : FS} {p : FsPath} {fs1 : FS}
    (h : ensure_path_exists fs p = some fs1) :
    fs1.files = fs.files ∧ fs1.now = fs.now := by
  obtain ⟨-, rfl⟩ := ensure_eq_some h
  exact ⟨rfl, rfl⟩

theorem ensure_dirs_mono {fs : FS} {p : FsPath} {fs1 : FS}
    (h : ensure_path_exists fs p = some fs1) :
    (∀ q, q ∈ fs.dirs.map Prod.fst → q ∈ fs1.dirs.map Prod.fst) ∧
    (∀ q ∈ prefixesOf p, q ∈ fs1.dirs.map Prod.fst) := by
  obtain ⟨-, rfl⟩ := ensure_eq_some h
  exact ⟨fun q hq => addDirsGo_mono _ _ _ q hq,
         fun q hq => addDirsGo_covers _ _ _ q hq⟩

theorem ensure_noop {fs : FS} {p : FsPath}
    (hdirs : ∀ q ∈ prefixesOf p, q ∈ fs.dirs.map Prod.fst)
    (hfiles : (prefixesOf p).any (fun q => isFile fs q) = false) :
    ensure_path_exists fs p = some fs := by
  unfold ensure_path_exists
  rw [if_neg (by simp [hfiles])]
  unfold addDirs
  rw [addDirsGo_noop _ _ _ hdirs]

theorem mem_prefixesOf_length {q p : FsPath} (h : q ∈ prefixesOf p) :
    q.length ≤ p.length := by
  unfold prefixesOf at h
  rw [List.mem_map] at h
  obtain ⟨i, hi, rfl⟩ := h
  rw [List.mem_range] at hi
  simp [List.length_take]

theorem ensure_parent_isDir {fs fs1 : FS} {dst : FsPath}
    (h : ensure_path_exists fs dst.dropLast = some fs1)
    (hnd : isDir fs dst = false) : isDir fs1 dst = false := by
  obtain ⟨-, rfl⟩ := ensure_eq_some h
  unfold isDir at hnd ⊢
  by_cases hc : ((addDirs fs (prefixesOf dst.dropLast)).dirs.map Prod.fst).contains dst
  · exfalso
    have hmem := (contains_iff_path _ _).mp hc
    rcases addDirsGo_mem fs.now _ _ _ hmem with hm | hm
    · rw [(contains_iff_path _ _).mpr hm] at hnd
      exact Bool.true_eq_false.mp hnd
    · have hlen := mem_prefixesOf_length hm
      rw [List.length_dropLast] at hlen
      cases dst with
      | nil => exact absurd hm (by simp [prefixesOf])
      | cons a as => simp at hlen
  · simpa using hc

theorem isFile_congr {fs1 fs2 : FS} (h : fs1.files = fs2.files) (q : FsPath) :
    isFile fs1 q = isFile fs2 q := by
  unfold isFile
  rw [h]

theorem orgFold_length (org : Organizer) (folders : Folders)
    (corrupt : List Nat → List Nat) :
    ∀ (l : List (List Char × FileData)) (acc : List OrgResult × ClientRecord × FS),
      ((l.foldl (orgStep org folders corrupt) acc).1).length = acc.1.length + l.length := by
  intro l
  induction l with
  | nil => intro acc; rfl
  | cons t rest ih =>
    intro acc
    rw [List.foldl_cons, ih]
    show (orgStep org folders corrupt acc t).1.length + rest.length = _
    have hstep : (orgStep org folders corrupt acc t).1.length = acc.1.length + 1 := by
      show (acc.1 ++ [_]).length = acc.1.length + 1
      rw [List.length_append]
      rfl
    rw [hstep]
    simp [List.length_cons]
    omega


theorem organizeCopy_fail (base : OrgResult) (fsx : FS) (src dst : FsPath)
    (corrupt : List Nat → List Nat) (fsr : FS)
    (h : safe_copy_file fsx src dst true corrupt = (false, fsr)) :
    organizeCopy base fsx src dst corrupt
      = ({ base with error := some "Copy operation failed".toList }, fsr) := by
  unfold organizeCopy
  rw [h]
  simp

/-- C6: every copy is size-verified, on every materialization path — free
destination, fresh-mode collision (the copy after the backup), or
rerun-mode collision: whenever the written destination size differs from
the source size, the destination file is removed from the filesystem, the
per-file result has status `Failed` with error `Copy operation failed`
(recorded, not propagated), and the batch always yields exactly one
result per collected file regardless of failures. -/
theorem copy_verification (org : Organizer) (folders : Folders)
    (fs fsc fs1 : FS) (ft : List Char) (fd : FileData)
    (corrupt : List Nat → List Nat) (d : FsPath) (sb : List Nat)
    (hdest : get_destination_folder ft folders = some d)
    (hbranch :
      (pathExists fs (fsJoin d (sanitize_filename fd.name 200)) = false ∧
        fsc = fs) ∨
      (pathExists fs (fsJoin d (sanitize_filename fd.name 200)) = true ∧
        org.processing_mode = ProcessingMode.fresh ∧
        fsc = (create_backup fs org.safe_timestamp
          (fsJoin d (sanitize_filename fd.name 200))).2) ∨
      (pathExists fs (fsJoin d (sanitize_filename fd.name 200)) = true ∧
        org.processing_mode = ProcessingMode.rerun ∧ fsc = fs))
    (hsrc : List.lookup fd.full_path fsc.files = some sb)
    (hpar : ensure_path_exists fsc
      (fsJoin d (sanitize_filename fd.name 200)).dropLast = some fs1)
    (hndir : isDir fs1 (fsJoin d (sanitize_filename fd.name 200)) = false)
    (hcor : sb.length ≠ (corrupt sb).length) :
    (organize_single_file org folders fs ft fd corrupt).1.status = "Failed".toList ∧
    (organize_single_file org folders fs ft fd corrupt).1.error
      = some "Copy operation failed".toList ∧
    List.lookup (fsJoin d (sanitize_filename fd.name 200))
      (organize_single_file org folders fs ft fd corrupt).2.files = none ∧
    ∀ (ci : ClientRecord) (fs0 : FS),
      ((organize_files org folders ci fs0 corrupt).1).length
        = (allFilesOf ci.files).length := by
  have hlen : ∀ (ci : ClientRecord) (fs0 : FS),
      ((organize_files org folders ci fs0 corrupt).1).length
        = (allFilesOf ci.files).length := by
    intro ci fs0
    unfold organize_files
    rw [orgFold_length]
    simp
  have hscf : safe_copy_file fsc fd.full_path
      (fsJoin d (sanitize_filename fd.name 200)) true corrupt
      = (false, fsRemove fs1 (fsJoin d (sanitize_filename fd.name 200)) (corrupt sb)) := by
    simp only [safe_copy_file, hsrc, hpar, hndir, Bool.false_eq_true, if_false]
    rw [if_pos hcor]
    rfl
  rcases hbranch with ⟨hnex, rfl⟩ | ⟨hex, hmode, rfl⟩ | ⟨hex, hmode, rfl⟩
  · have hosf : organize_single_file org folders fsc ft fd corrupt
        = ({ filename := fd.name, file_type := ft, source := fd.full_path,
             destination := some (fsJoin d (sanitize_filename fd.name 200)),
             status := "Failed".toList,
             error := some "Copy operation failed".toList,
             backup := none,
             sanitized_filename := some (sanitize_filename fd.name 200) },
           fsRemove fs1 (fsJoin d (sanitize_filename fd.name 200)) (corrupt sb)) := by
      simp only [organize_single_file, hdest, hnex, Bool.false_eq_true, if_false,
        organizeCopy, hscf]
    exact ⟨by rw [hosf], by rw [hosf], by rw [hosf]; exact lookup_filter_ne _ _, hlen⟩
  · have hosf : organize_single_file org folders fs ft fd corrupt
        = ({ filename := fd.name, file_type := ft, source := fd.full_path,
             destination := some (fsJoin d (sanitize_filename fd.name 200)),
             status := "Failed".toList,
             error := some "Copy operation failed".toList,
             backup := (create_backup fs org.safe_timestamp
               (fsJoin d (sanitize_filename fd.name 200))).1,
             sanitized_filename := some (sanitize_filename fd.name 200) },
           fsRemove fs1 (fsJoin d (sanitize_filename fd.name 200)) (corrupt sb)) := by
      simp only [organize_single_file, hdest, hex, eq_self_iff_true, if_true, hmode,
        organizeCopy, hscf, Bool.false_eq_true, if_false]
    exact ⟨by rw [hosf], by rw [hosf], by rw [hosf]; exact lookup_filter_ne _ _, hlen⟩
  · have hosf : organize_single_file org folders fsc ft fd corrupt
        = ({ filename := fd.name, file_type := ft, source := fd.full_path,
             destination := some (fsJoin d (sanitize_filename fd.name 200)),
             status := "Failed".toList,
             error := some "Copy operation failed".toList,
             backup := none,
             sanitized_filename := some (sanitize_filename fd.name 200) },
           fsRemove fs1 (fsJoin d (sanitize_filename fd.name 200)) (corrupt sb)) := by
      simp only [organize_single_file, hdest, hex, eq_self_iff_true, if_true, hmode,
        organizeCopy, hscf, Bool.false_eq_true, if_false]
    exact ⟨by rw [hosf], by rw [hosf], by rw [hosf]; exact lookup_filter_ne _ _, hlen⟩

/-- C6 witness: a concrete fresh-mode collision run — the destination
already exists, is backed up, and the re-copy fails verification. -/
theorem copy_verification_witness :
    (organize_single_file fxOrgFresh fxFolders fxFSwithDest "Sales".toList
      fxSalesFD noBytes).1.status = "Failed".toList ∧
    (organize_single_file fxOrgFresh fxFolders fxFSwithDest "Sales".toList
      fxSalesFD noBytes).1.error = some "Copy operation failed".toList ∧
    List.lookup fxDstPath
      (organize_single_file fxOrgFresh fxFolders fxFSwithDest "Sales".toList
        fxSalesFD noBytes).2.files = none ∧
    ∀ (ci : ClientRecord) (fs0 : FS),
      ((organize_files fxOrgFresh fxFolders ci fs0 noBytes).1).length
        = (allFilesOf ci.files).length :=
  copy_verification fxOrgFresh fxFolders fxFSwithDest fxFSbak fxFS1b
    "Sales".toList fxSalesFD noBytes fxDestSales [1, 2, 3]
    (by decide) (Or.inr (Or.inl ⟨by decide, rfl, rfl⟩)) (by decide) (by decide)
    (by decide) (by decide)

theorem any_congrF {l : List FsPath} {f g : FsPath → Bool} (h : ∀ q, f q = g q) :
    l.any f = l.any g := by
  induction l with
  | nil => rfl
  | cons a as ih => simp [List.any_cons, h, ih]

theorem ensure_rerun {fsX fsY fsF : FS} {p : FsPath}
    (h : ensure_path_exists fsX p = some fsY)
    (hfiles : fsF.files = fsX.files)
    (hdirs : ∀ q ∈ prefixesOf p, q ∈ fsF.dirs.map Prod.fst) :
    ensure_path_exists fsF p = some fsF := by
  obtain ⟨hany, -⟩ := ensure_eq_some h
  apply ensure_noop hdirs
  rw [any_congrF (fun q => isFile_congr hfiles q)]
  exact hany

theorem get_level1_fresh {org : Organizer} {fs : FS} {level1 : FsPath} {fsA : FS}
    (hmode : org.processing_mode = ProcessingMode.fresh)
    (h : get_level1_folder org fs = some (level1, fsA)) :
    level1 = fsJoin org.target_folder ("Annual Statement-".toList ++ org.timestamp) ∧
    ensure_path_exists fs
      (fsJoin org.target_folder ("Annual Statement-".toList ++ org.timestamp))
      = some fsA := by
  simp only [get_level1_folder, hmode] at h
  rcases hE : ensure_path_exists fs
      (fsJoin org.target_folder ("Annual Statement-".toList ++ org.timestamp))
    with _ | fsA2
  · rw [hE] at h
    exact absurd h (by simp)
  · rw [hE] at h
    simp only [Option.map_some', Option.some.injEq, Prod.mk.injEq] at h
    obtain ⟨h1, h2⟩ := h
    exact ⟨h1.symm, congrArg some h2⟩

/-- C7: the folder topology builder is idempotent in fresh mode: a second
invocation with the same client, jurisdiction and timestamp on the
filesystem left by the first does not error and yields the same paths and
the same filesystem; directory creation is create-if-missing. -/
theorem create_structure_idempotent (org : Organizer) (ci : ClientRecord)
    (fs fs1 : FS) (f : Folders)
    (hmode : org.processing_mode = ProcessingMode.fresh)
    (h1 : create_client_structure org ci fs = some (f, fs1)) :
    create_client_structure org ci fs1 = some (f, fs1) := by
  unfold create_client_structure at h1
  cases hL : get_level1_folder org fs with
  | none => rw [hL] at h1; exact absurd h1 (by simp)
  | some pr =>
    obtain ⟨level1, fsA⟩ := pr
    rw [hL] at h1
    dsimp only at h1
    obtain ⟨hp1, hE1⟩ := get_level1_fresh hmode hL
    subst hp1
    split at h1
    · exact absurd h1 (by simp)
    rename_i fsB hE2
    split at h1
    · exact absurd h1 (by simp)
    rename_i fsC hE3
    split at h1
    · exact absurd h1 (by simp)
    rename_i fsD hE4
    split at h1
    · exact absurd h1 (by simp)
    rename_i fsE hE5
    split at h1
    · exact absurd h1 (by simp)
    rename_i fsF hE6
    obtain ⟨hf, hfs⟩ := Prod.ext_iff.mp (Option.some.inj h1)
    subst hfs
    subst hf
    have filA := (ensure_files_now hE1).1
    have filB := (ensure_files_now hE2).1
    have filC := (ensure_files_now hE3).1
    have filD := (ensure_files_now hE4).1
    have filE := (ensure_files_now hE5).1
    have filF := (ensure_files_now hE6).1
    have chainB : ∀ q, q ∈ fsB.dirs.map Prod.fst → q ∈ fsF.dirs.map Prod.fst :=
      fun q h => (ensure_dirs_mono hE6).1 q ((ensure_dirs_mono hE5).1 q
        ((ensure_dirs_mono hE4).1 q ((ensure_dirs_mono hE3).1 q h)))
    have chainA : ∀ q, q ∈ fsA.dirs.map Prod.fst → q ∈ fsF.dirs.map Prod.fst :=
      fun q h => chainB q ((ensure_dirs_mono hE2).1 q h)
    have hN1 := ensure_rerun hE1
      (by rw [filF, filE, filD, filC, filB, filA])
      (fun q hq => chainA q ((ensure_dirs_mono hE1).2 q hq))
    have hN2 := ensure_rerun hE2
      (by rw [filF, filE, filD, filC, filB])
      (fun q hq => chainB q ((ensure_dirs_mono hE2).2 q hq))
    have hN3 := ensure_rerun hE3
      (by rw [filF, filE, filD, filC])
      (fun q hq => (ensure_dirs_mono hE6).1 q ((ensure_dirs_mono hE5).1 q
        ((ensure_dirs_mono hE4).1 q ((ensure_dirs_mono hE3).2 q hq))))
    have hN4 := ensure_rerun hE4
      (by rw [filF, filE, filD])
      (fun q hq => (ensure_dirs_mono hE6).1 q ((ensure_dirs_mono hE5).1 q
        ((ensure_dirs_mono hE4).2 q hq)))
    have hN5 := ensure_rerun hE5
      (by rw [filF, filE])
      (fun q hq => (ensure_dirs_mono hE6).1 q ((ensure_dirs_mono hE5).2 q hq))
    have hN6 := ensure_rerun hE6
      (by rw [filF])
      (fun q hq => (ensure_dirs_mono hE6).2 q hq)
    have hL2 : get_level1_folder org fsF
        = some (fsJoin org.target_folder
            ("Annual Statement-".toList ++ org.timestamp), fsF) := by
      simp only [get_level1_folder, hmode, hN1, Option.map_some']
    simp only [create_client_structure, hL2, hN2, hN3, hN4, hN5, hN6]

/-- C7 witness: building the structure for a concrete client on the empty
filesystem and running the builder again on the resulting filesystem. -/
theorem create_structure_idempotent_witness :
    create_client_structure fxOrgFresh fxClient fxEmptyFS = some fxPair7 ∧
    create_client_structure fxOrgFresh fxClient fxPair7.2 = some fxPair7 :=
  ⟨by decide,
   create_structure_idempotent fxOrgFresh fxClient fxEmptyFS fxPair7.2 fxPair7.1
     rfl (by decide)⟩

theorem pyTake_pos_ne_nil {s : List Char} (hs : s ≠ []) {n : ℤ} (hn : 0 < n) :
    pyTake s n ≠ [] := by
  unfold pyTake
  rw [if_pos (le_of_lt hn)]
  intro h
  rcases List.take_eq_nil_iff.mp h with h1 | h1
  · rw [Int.toNat_eq_zero] at h1
    omega
  · exact hs h1

theorem sanitizeCap_ne_nil (b6 : List Char) : sanitizeCap b6 0 200 ≠ [] := by
  unfold sanitizeCap
  by_cases hb : b6 = []
  · subst hb
    decide
  · simp only [if_neg hb]
    split
    · apply pyTake_pos_ne_nil hb
      norm_num
    · exact hb

theorem sanitize_filename_ne_nil (filename : List Char) :
    sanitize_filename filename 200 ≠ [] := by
  unfold sanitize_filename
  by_cases h0 : filename = []
  · rw [if_pos h0]
    decide
  · rw [if_neg h0]
    by_cases hs : suffixOf filename ≠ []
    · rw [if_pos hs]
      intro h
      exact hs (List.append_eq_nil.mp h).2
    · rw [if_neg hs]
      push_neg at hs
      rw [hs]
      exact sanitizeCap_ne_nil _

theorem organizeCopy_dest (base : OrgResult) (fs : FS) (src dst : FsPath)
    (corrupt : List Nat → List Nat) :
    (organizeCopy base fs src dst corrupt).1.destination = base.destination := by
  unfold organizeCopy
  split <;> rfl

theorem lastNameOf_fsJoin (d : FsPath) (name : List Char) (h : name ≠ []) :
    lastNameOf (some (fsJoin d name)) = name := by
  unfold lastNameOf fsJoin
  rw [if_neg (by simp [h])]
  rw [Option.getD_some, List.getLast?_concat]
  rfl

theorem osf_dest_of_dest_folder (org : Organizer) (folders : Folders) (fs : FS)
    (ft : List Char) (fd : FileData) (corrupt : List Nat → List Nat) (d : FsPath)
    (hd : get_destination_folder ft folders = some d) :
    (organize_single_file org folders fs ft fd corrupt).1.destination
      = some (fsJoin d (sanitize_filename fd.name 200)) := by
  unfold organize_single_file
  rw [hd]
  dsimp only
  split
  · split <;> simp [organizeCopy_dest]
  · exact organizeCopy_dest _ _ _ _ _

theorem fdRel_refl (a : FileData) : fdRel a a := Or.inl rfl

theorem filesRel_refl (l : List (List Char × List FileData)) : filesRel l l :=
  List.forall₂_same.mpr fun p _ =>
    ⟨rfl, List.forall₂_same.mpr fun a _ => fdRel_refl a⟩

theorem fdRel_full_path {a b : FileData} (h : fdRel a b) :
    b.full_path = a.full_path := by
  rcases h with rfl | rfl
  · rfl
  · rfl

theorem updateFirstFD_rel : ∀ (la lc : List FileData), List.Forall₂ fdRel la lc →
    ∀ (fp : FsPath) (nn : List Char),
    (∀ a ∈ la, a.full_path = fp → nn = sanitize_filename a.name 200) →
    List.Forall₂ fdRel la (updateFirstFD lc fp nn) := by
  intro la lc h
  induction h with
  | nil => intro fp nn _; exact List.Forall₂.nil
  | @cons a c as cs hab htail ih =>
    intro fp nn hn
    unfold updateFirstFD
    by_cases hc : c.full_path = fp
    · rw [if_pos hc]
      refine List.Forall₂.cons ?_ htail
      have hafp : a.full_path = fp := by
        rw [← fdRel_full_path hab]
        exact hc
      have hnn := hn a (List.mem_cons_self _ _) hafp
      rcases hab with rfl | rfl
      · exact Or.inr (by rw [hnn]; rfl)
      · exact Or.inr (by rw [hnn]; rfl)
    · rw [if_neg hc]
      exact List.Forall₂.cons hab
        (ih fp nn fun x hx hxe => hn x (List.mem_cons_of_mem _ hx) hxe)

theorem updateFiles_rel : ∀ (orig cur : List (List Char × List FileData)),
    filesRel orig cur → ∀ (ft : List Char) (fp : FsPath) (nn : List Char),
    (∀ a ∈ allRecordsOf orig, a.full_path = fp → nn = sanitize_filename a.name 200) →
    filesRel orig (updateFiles cur ft fp nn) := by
  intro orig cur h
  induction h with
  | nil => intro ft fp nn _; exact List.Forall₂.nil
  | @cons p q ps qs hpq htail ih =>
    intro ft fp nn hn
    obtain ⟨pk, pl⟩ := p
    obtain ⟨t, l⟩ := q
    unfold updateFiles
    by_cases ht : t = ft
    · rw [if_pos ht]
      refine List.Forall₂.cons ⟨hpq.1, ?_⟩ htail
      exact updateFirstFD_rel pl l hpq.2 fp nn
        (fun a ha hafp => hn a (List.mem_append_left _ ha) hafp)
    · rw [if_neg ht]
      exact List.Forall₂.cons hpq
        (ih ft fp nn fun a ha hafp => hn a (List.mem_append_right _ ha) hafp)

theorem mem_allRecords_of_mem_allFiles :
    ∀ (m : List (List Char × List FileData)) (t : List Char) (fd : FileData),
    (t, fd) ∈ allFilesOf m → fd ∈ allRecordsOf m := by
  intro m
  induction m with
  | nil => intro t fd h; exact absurd h (List.not_mem_nil _)
  | cons p rest ih =>
    intro t fd h
    obtain ⟨pk, pl⟩ := p
    unfold allFilesOf at h
    unfold allRecordsOf
    rcases List.mem_append.mp h with h2 | h2
    · rw [List.mem_map] at h2
      obtain ⟨x, hx, hxe⟩ := h2
      apply List.mem_append_left
      have hxd : x = fd := congrArg Prod.snd hxe
      rw [← hxd]
      exact hx
    · exact List.mem_append_right _ (ih t fd h2)

theorem foldl_preserve {α β : Type} (P : β → Prop) (f : β → α → β) :
    ∀ (l : List α) (b : β), P b → (∀ a ∈ l, ∀ x, P x → P (f x a)) →
    P (l.foldl f b) := by
  intro l
  induction l with
  | nil => intro b hb _; exact hb
  | cons a as ih =>
    intro b hb hstep
    rw [List.foldl_cons]
    exact ih _ (hstep a (List.mem_cons_self _ _) b hb)
      (fun x hx => hstep x (List.mem_cons_of_mem _ hx))

/-- C9 (amended): organizing a client's files leaves every record either
untouched or with exactly its `name` and `sanitized_name` rewritten to the
sanitized filename (so source path, size, timestamps, category, client and
jurisdiction are always unchanged, and `sanitized_name` is set only to the
sanitized value) — the original-filename field is NOT preserved on a
successful materialization. -/
theorem organize_files_frame (org : Organizer) (folders : Folders)
    (ci : ClientRecord) (fs : FS) (corrupt : List Nat → List Nat)
    (hdist : ((allRecordsOf ci.files).map FileData.full_path).Nodup) :
    filesRel ci.files (organize_files org folders ci fs corrupt).2.1.files := by
  unfold organize_files
  refine foldl_preserve (fun acc => filesRel ci.files acc.2.1.files)
    (orgStep org folders corrupt) (allFilesOf ci.files) ([], ci, fs) ?_ ?_
  · exact filesRel_refl ci.files
  · rintro ⟨t, fd⟩ hmem acc hacc
    unfold orgStep
    dsimp only
    by_cases hs : (organize_single_file org folders acc.2.2 t fd corrupt).1.status
        = "Success".toList
    · rw [if_pos hs]
      dsimp only
      apply updateFiles_rel _ _ hacc
      intro a ha hafp
      have hfd : fd ∈ allRecordsOf ci.files :=
        mem_allRecords_of_mem_allFiles _ _ _ hmem
      have hae : a = fd :=
        List.inj_on_of_nodup_map hdist ha hfd (by rw [hafp])
      rw [hae]
      cases hd : get_destination_folder t folders with
      | none =>
        exfalso
        have hfail : (organize_single_file org folders acc.2.2 t fd corrupt).1.status
            = "Failed".toList := by
          unfold organize_single_file
          rw [hd]
        exact absurd (hfail.symm.trans hs) (by decide)
      | some d =>
        rw [osf_dest_of_dest_folder org folders acc.2.2 t fd corrupt d hd]
        exact lastNameOf_fsJoin d _ (sanitize_filename_ne_nil _)
    · rw [if_neg hs]
      exact hacc

/-- C9 witness: the frame relation at a concrete organizer run in which
the single file is successfully materialized and renamed. -/
theorem organize_files_frame_witness :
    filesRel fxSpacedCI.files
      (organize_files fxOrgFresh fxFolders fxSpacedCI fxSpacedFS id).2.1.files :=
  organize_files_frame fxOrgFresh fxFolders fxSpacedCI fxSpacedFS id (by decide)

/-- C9 counterexample: a successful materialization overwrites the
record's original-filename field with the sanitized name (the space
becomes an underscore), refuting that only the sanitized-name field
changes. -/
theorem organize_files_name_cex :
    (allRecordsOf (organize_files fxOrgFresh fxFolders fxSpacedCI fxSpacedFS
        id).2.1.files).map FileData.name
      = ["GSTR3B-Acme_Ltd-Goa-Apr.xlsx".toList] ∧
    (allRecordsOf fxSpacedCI.files).map FileData.name
      = ["GSTR3B-Acme Ltd-Goa-Apr.xlsx".toList] := by
  decide
